import Mathlib

/-!
Verification of the discord-code-agent runtime core against its source.

The development shallowly embeds the TypeScript sources:
`src/agent/agent-service.ts` (enqueue and dedup),
`src/queue/session-queue.ts` (the per-session FIFO scheduler),
`src/runner/job-coordinator.ts` (pick-next policy and the kick loop),
`src/adapters/codex-adapter.ts`, the ClaudeAdapter document and the
GeminiAdapter document (post-run stdout passes, argv construction, retry).
JavaScript strings, arrays and objects are modelled with `String`,
`List` and insertion-ordered association lists (`List (String × _)`),
matching the iteration order of JS objects and Maps for the
non-integer-like keys used throughout the theorems.  Machine integers
(exit codes, counters) are modelled with `Int`.
-/

namespace DCA

/-! ### JavaScript string primitives, modelled at the character level -/

/-- Model of `String.prototype.toLowerCase` restricted to the ASCII letters,
which is all the adapter code compares after lowercasing. -/
def charLower : Char → Char
  | 'A' => 'a' | 'B' => 'b' | 'C' => 'c' | 'D' => 'd' | 'E' => 'e' | 'F' => 'f'
  | 'G' => 'g' | 'H' => 'h' | 'I' => 'i' | 'J' => 'j' | 'K' => 'k' | 'L' => 'l'
  | 'M' => 'm' | 'N' => 'n' | 'O' => 'o' | 'P' => 'p' | 'Q' => 'q' | 'R' => 'r'
  | 'S' => 's' | 'T' => 't' | 'U' => 'u' | 'V' => 'v' | 'W' => 'w' | 'X' => 'x'
  | 'Y' => 'y' | 'Z' => 'z'
  | c => c

/-- Lowercase a whole string, character by character. -/
def strLower (s : String) : String := ⟨s.data.map charLower⟩

/-- Needle-at-front check on character lists (first argument is the needle). -/
def leadsWith : List Char → List Char → Bool
  | [], _ => true
  | _ :: _, [] => false
  | a :: as, b :: bs => a = b && leadsWith as bs

/-- Substring search on character lists (haystack first). -/
def subSearch (h n : List Char) : Bool :=
  if leadsWith n h then true else
    match h with
    | [] => false
    | _ :: rest => subSearch rest n

/-- Model of `String.prototype.includes`. -/
def strIncludes (h n : String) : Bool := subSearch h.data n.data

/-- Characters removed by `String.prototype.trim` (ASCII whitespace). -/
def jsWhitespace (c : Char) : Bool := c = ' ' || c = '\t' || c = '\n' || c = '\r'

/-- Model of `String.prototype.trim`. -/
def strTrim (s : String) : String :=
  ⟨((s.data.dropWhile jsWhitespace).reverse.dropWhile jsWhitespace).reverse⟩

/-- Lexicographic less-or-equal on character lists: the ordering induced by the
`a.localeCompare(b)` comparator on the ASCII identifiers used by the runtime. -/
def charsLe : List Char → List Char → Bool
  | [], _ => true
  | _ :: _, [] => false
  | a :: as, b :: bs => if a < b then true else if b < a then false else charsLe as bs

/-- String comparison used to sort sessions by `last_activity_at`. -/
def strLe (a b : String) : Bool := charsLe a.data b.data

/-! ### Insertion-ordered association lists (JS object / Map model) -/

/-- Lookup of a key in an insertion-ordered association list. -/
def lookupKey (k : String) : List (String × β) → Option β
  | [] => none
  | p :: rest => if p.1 = k then some p.2 else lookupKey k rest

/-- Update the value stored under a key, leaving the map unchanged when the key
is absent (the JS pattern `map[k] = f(map[k])` on an existing property). -/
def setKey (k : String) (f : β → β) : List (String × β) → List (String × β)
  | [] => []
  | p :: rest => if p.1 = k then (p.1, f p.2) :: rest else p :: setKey k f rest

/-- JS property assignment `obj[k] = v`: overwrite in place when the key
exists, otherwise append the new key in insertion order. -/
def assign (k : String) (v : β) : List (String × β) → List (String × β)
  | [] => [(k, v)]
  | p :: rest => if p.1 = k then (k, v) :: rest else p :: assign k v rest

/-! ### Domain data model (`src/state/replay.ts` entity shapes, as used by the
sources under `src/` and reproduced in `state/snapshot.json` of the spec) -/

/-- The three supported CLI tools. -/
inductive ToolName
  | claude
  | codex
  | gemini
deriving DecidableEq, Repr

/-- Job lifecycle states. -/
inductive JobState
  | queued
  | running
  | success
  | failed
  | unknown_after_crash
deriving DecidableEq, Repr

/-- Stable error codes from `src/domain/errors.ts` (the subset the embedded
operations can produce). -/
inductive ErrorCode
  | E_OWNER_ONLY
  | E_NOT_IN_MANAGED_THREAD
  | E_PROJECT_NOT_FOUND
  | E_QUEUE_FULL
  | E_JOB_NOT_RETRYABLE
  | E_CLI_TIMEOUT
  | E_CLI_EXIT_NONZERO
  | E_ADAPTER_PARSE
  | E_ADAPTER_MISSING_RESULT
  | E_ADAPTER_SESSION_KEY_MISSING
deriving DecidableEq, Repr

/-- Tool-specific resume keys kept in `session.adapter_state` (`session_id`
for claude and gemini, `thread_id` for codex). -/
structure AdapterState where
  session_id : Option String := none
  thread_id : Option String := none
deriving DecidableEq, Repr

/-- Merge of a returned adapter state over the existing one: fields present in
the update win, missing fields keep their previous value. -/
def mergeAdapterState (old upd : AdapterState) : AdapterState where
  session_id := upd.session_id.orElse fun _ => old.session_id
  thread_id := upd.thread_id.orElse fun _ => old.thread_id

/-- Session entity: one conversational context per chat thread. -/
structure SessionEntity where
  thread_id : String
  project_name : String
  tool : ToolName
  adapter_state : AdapterState
  queue : List String
  running_job_id : Option String
  last_job_id : Option String
  created_at : String
  updated_at : String
  last_activity_at : String
deriving DecidableEq, Repr

/-- Job entity: one enqueued prompt plus its execution outcome. -/
structure JobEntity where
  job_id : String
  thread_id : String
  discord_message_id : String
  state : JobState
  prompt : String
  tool : ToolName
  attempt : Nat
  error_code : Option ErrorCode
  error_message : Option String
  started_at : Option String
  finished_at : Option String
  result_excerpt : Option String
deriving DecidableEq, Repr

/-- In-memory projection reconstructed by replay: three insertion-ordered maps,
exactly the `sessions` / `jobs` / `dedupe` triple of `RuntimeStore`. -/
structure RuntimeState where
  sessions : List (String × SessionEntity)
  jobs : List (String × JobEntity)
  dedupe : List (String × String)
deriving DecidableEq, Repr

/-- The empty runtime state (fresh store, no snapshot, no events). -/
def RuntimeState.empty : RuntimeState := ⟨[], [], []⟩

/-- Frozen scheduling constant `MAX_QUEUE_PER_SESSION` (spec section 6;
`src/domain/constants.ts` is imported by the sources with this value). -/
def MAX_QUEUE_PER_SESSION : Nat := 20

/-- Frozen scheduling constant `GLOBAL_MAX_RUNNING`. -/
def GLOBAL_MAX_RUNNING : Nat := 2

/-! ### Events and event application -/

/-- Event payloads appended to `events.ndjson` (envelope `seq` and `ts` are
kept outside the payload; `ts` is passed to application explicitly). -/
inductive EventBody
  | ProjectCreated (project_name path : String) (enabled_tools : List ToolName)
  | SessionCreated (thread_id project_name : String) (tool : ToolName)
      (adapter_state : AdapterState)
  | ToolChanged (thread_id : String) (tool : ToolName)
  | JobEnqueued (thread_id job_id discord_message_id prompt : String)
      (tool : ToolName) (attempt : Nat)
  | JobStarted (thread_id job_id : String)
  | JobCompleted (thread_id job_id result_excerpt : String)
      (adapter_state : AdapterState)
  | JobFailed (thread_id job_id : String) (error_code : ErrorCode)
      (error_message : String) (adapter_state : Option AdapterState)
  | JobMarkedUnknownAfterCrash (thread_id job_id : String)
deriving DecidableEq, Repr

/-- Modelled from the spec: the canonical event-to-state transition table
(spec section 4.5 / 6); `src/state/replay.ts`, which implements it, is not
among the repository sources, only its type declarations are imported.  The
argument `ts` is the envelope timestamp of the applied event. -/
def applyEvent (st : RuntimeState) (ts : String) : EventBody → RuntimeState
  | .ProjectCreated _ _ _ => st
  | .SessionCreated tid pname tool ast =>
      { st with
        sessions := assign tid
          { thread_id := tid, project_name := pname, tool := tool
            adapter_state := ast, queue := [], running_job_id := none
            last_job_id := none, created_at := ts, updated_at := ts
            last_activity_at := ts } st.sessions }
  | .ToolChanged tid tool =>
      { st with sessions := setKey tid (fun s => { s with tool := tool }) st.sessions }
  | .JobEnqueued tid jid mid prompt tool attempt =>
      { st with
        jobs := assign jid
          { job_id := jid, thread_id := tid, discord_message_id := mid
            state := .queued, prompt := prompt, tool := tool, attempt := attempt
            error_code := none, error_message := none, started_at := none
            finished_at := none, result_excerpt := none } st.jobs
        sessions := setKey tid
          (fun s => { s with queue := s.queue ++ [jid], last_activity_at := ts })
          st.sessions
        dedupe := assign (tid ++ ":" ++ mid) jid st.dedupe }
  | .JobStarted tid jid =>
      { st with
        jobs := setKey jid
          (fun j => { j with state := .running, started_at := some ts }) st.jobs
        sessions := setKey tid
          (fun s => { s with running_job_id := some jid, queue := s.queue.tail })
          st.sessions }
  | .JobCompleted tid jid excerpt ast =>
      { st with
        jobs := setKey jid
          (fun j => { j with state := .success, finished_at := some ts
                             result_excerpt := some excerpt }) st.jobs
        sessions := setKey tid
          (fun s => { s with running_job_id := none, last_job_id := some jid
                             adapter_state := mergeAdapterState s.adapter_state ast })
          st.sessions }
  | .JobFailed tid jid code msg ast? =>
      { st with
        jobs := setKey jid
          (fun j => { j with state := .failed, finished_at := some ts
                             error_code := some code, error_message := some msg })
          st.jobs
        sessions := setKey tid
          (fun s => { s with running_job_id := none, last_job_id := some jid
                             adapter_state :=
                               match ast? with
                               | some ast => mergeAdapterState s.adapter_state ast
                               | none => s.adapter_state })
          st.sessions }
  | .JobMarkedUnknownAfterCrash tid jid =>
      { st with
        jobs := setKey jid (fun j => { j with state := .unknown_after_crash }) st.jobs
        sessions := setKey tid
          (fun s => { s with running_job_id := none, last_job_id := some jid })
          st.sessions }

/-! ### AgentService.enqueueThreadMessage (`src/agent/agent-service.ts`) -/

/-- Value returned by a successful enqueue. -/
structure EnqueueOk where
  jobId : String
  deduped : Bool
deriving DecidableEq, Repr

/-- Decidable equality for call results wrapped in `Except`. -/
instance exceptDecEq [DecidableEq ε] [DecidableEq α] : DecidableEq (Except ε α)
  | .ok a, .ok b =>
    if h : a = b then isTrue (by rw [h])
    else isFalse (by intro hh; cases hh; exact h rfl)
  | .ok _, .error _ => isFalse (by intro h; cases h)
  | .error _, .ok _ => isFalse (by intro h; cases h)
  | .error a, .error b =>
    if h : a = b then isTrue (by rw [h])
    else isFalse (by intro hh; cases hh; exact h rfl)

/-- Full outcome of one `enqueueThreadMessage` call: the result (or thrown
`DomainError` code), the runtime state after the call, and the list of events
the call appended. -/
structure EnqueueOutcome where
  result : Except ErrorCode EnqueueOk
  state : RuntimeState
  events : List EventBody
deriving DecidableEq, Repr

/-- The dedup key `thread_id + ":" + message_id`. -/
def dedupeKeyFor (threadId messageId : String) : String :=
  threadId ++ ":" ++ messageId

/-- Embedding of `AgentService.enqueueThreadMessage`.  `newJobId` stands for
the value of `this.createJobId()` and `ts` for the append timestamp; on a
thrown `DomainError` the state is unchanged and no event is appended. -/
def enqueueThreadMessage (ownerId : String) (st : RuntimeState)
    (userId threadId messageId prompt newJobId ts : String) : EnqueueOutcome :=
  if userId ≠ ownerId then ⟨.error .E_OWNER_ONLY, st, []⟩
  else
    match lookupKey threadId st.sessions with
    | none => ⟨.error .E_NOT_IN_MANAGED_THREAD, st, []⟩
    | some session =>
      match lookupKey (dedupeKeyFor threadId messageId) st.dedupe with
      | some existing => ⟨.ok ⟨existing, true⟩, st, []⟩
      | none =>
        if MAX_QUEUE_PER_SESSION ≤ session.queue.length then
          ⟨.error .E_QUEUE_FULL, st, []⟩
        else
          let ev := EventBody.JobEnqueued threadId newJobId messageId prompt
            session.tool 1
          ⟨.ok ⟨newJobId, false⟩, applyEvent st ts ev, [ev]⟩

/-- One enqueue request: the per-call arguments of `enqueueThreadMessage`. -/
structure EnqueueReq where
  userId : String
  threadId : String
  messageId : String
  prompt : String
  newJobId : String
  ts : String
deriving DecidableEq, Repr

/-- Sequential processing of a list of enqueue requests, collecting every
event appended along the way (a valid history of enqueue calls). -/
def runEnqueues (ownerId : String) (st : RuntimeState) :
    List EnqueueReq → RuntimeState × List EventBody
  | [] => (st, [])
  | r :: rest =>
    let out := enqueueThreadMessage ownerId st r.userId r.threadId r.messageId
      r.prompt r.newJobId r.ts
    let tail := runEnqueues ownerId out.state rest
    (tail.1, out.events ++ tail.2)

/-- Dedup key carried by a `JobEnqueued` event, if the event is one. -/
def eventDedupeKey : EventBody → Option String
  | .JobEnqueued tid _ mid _ _ _ => some (dedupeKeyFor tid mid)
  | _ => none

/-- Number of `JobEnqueued` events in a history that carry a given dedup key. -/
def countDedupeKey (k : String) (evs : List EventBody) : Nat :=
  (evs.filter fun e => eventDedupeKey e = some k).length

/-! ### Startup crash recovery -/

/-- Apply one synthetic crash event per (job_id, thread_id) pair, in order. -/
def markJobsUnknown (ts : String) (st : RuntimeState) :
    List (String × String) → RuntimeState × List EventBody
  | [] => (st, [])
  | (jid, tid) :: rest =>
    let ev := EventBody.JobMarkedUnknownAfterCrash tid jid
    let tail := markJobsUnknown ts (applyEvent st ts ev) rest
    (tail.1, ev :: tail.2)

/-- The (job_id, thread_id) pairs of all jobs currently in state `running`. -/
def runningJobPairs (st : RuntimeState) : List (String × String) :=
  (st.jobs.filter fun p => p.2.state = .running).map fun p => (p.1, p.2.thread_id)

/-- Modelled from the spec: `RuntimeStore.recoverRunningJobsAfterCrash`
(called from `src/index.ts` at startup and exercised by
`tests/runtime/runtime-store.test.ts`); `src/state/runtime-store.ts` itself is
not among the repository sources.  After replay, every job whose state is
`running` is transitioned to `unknown_after_crash` via one synthetic
`JobMarkedUnknownAfterCrash` event, which also clears the owning session's
`running_job_id`. -/
def recoverRunningJobsAfterCrash (ts : String) (st : RuntimeState) :
    RuntimeState × List EventBody :=
  markJobsUnknown ts st (runningJobPairs st)

/-! ### SessionQueueScheduler (`src/queue/session-queue.ts`) -/

/-- Per-thread queue entry of the scheduler (`QueueSession`). -/
structure QueueSession where
  queue : List String
  running : Option String
deriving DecidableEq, Repr

/-- State of a `SessionQueueScheduler` instance.  `runningTotal` is an `Int`
because the JS counter is a plain number that the code increments and
decrements without clamping. -/
structure Scheduler where
  globalMaxRunning : Int
  sessions : List (String × QueueSession)
  dedupe : List (String × String)
  runningTotal : Int
deriving DecidableEq, Repr

/-- A freshly constructed scheduler (the constructor throws unless
`globalMaxRunning` is at least 1, which reachability assumes). -/
def Scheduler.init (max : Int) : Scheduler :=
  ⟨max, [], [], 0⟩

/-- Embedding of `ensureSession`: insert an empty queue session when absent. -/
def Scheduler.ensureSession (s : Scheduler) (tid : String) : Scheduler :=
  match lookupKey tid s.sessions with
  | some _ => s
  | none => { s with sessions := s.sessions ++ [(tid, ⟨[], none⟩)] }

/-- Embedding of `enqueue`: push at the back of the thread's queue; `none`
models the `unknown thread session` throw of `mustGetSession`. -/
def Scheduler.enqueue (s : Scheduler) (tid jid : String) : Option Scheduler :=
  match lookupKey tid s.sessions with
  | none => none
  | some _ =>
    some { s with
      sessions := setKey tid (fun q => { q with queue := q.queue ++ [jid] }) s.sessions }

/-- Embedding of `startNext`.  The outer `none` models the `mustGetSession`
throw; `(none, s)` is the unchanged-state `return null` paths (session busy,
global cap reached, or empty queue); `(some jid, s')` pops the head job and
marks it running. -/
def Scheduler.startNext (s : Scheduler) (tid : String) :
    Option (Option String × Scheduler) :=
  match lookupKey tid s.sessions with
  | none => none
  | some sess =>
    if sess.running.isSome then some (none, s)
    else if s.globalMaxRunning ≤ s.runningTotal then some (none, s)
    else
      match sess.queue with
      | [] => some (none, s)
      | jid :: rest =>
        some (some jid,
          { s with
            sessions := setKey tid (fun q => { q with queue := rest, running := some jid })
              s.sessions
            runningTotal := s.runningTotal + 1 })

/-- Embedding of `finishRunning`; `none` models both the `mustGetSession`
throw and the `finishRunning mismatch` throw. -/
def Scheduler.finishRunning (s : Scheduler) (tid jid : String) : Option Scheduler :=
  match lookupKey tid s.sessions with
  | none => none
  | some sess =>
    if sess.running = some jid then
      some { s with
        sessions := setKey tid (fun q => { q with running := none }) s.sessions
        runningTotal := s.runningTotal - 1 }
    else none

/-- Embedding of `registerDedupe`: `false` and no change when the key is
already present, otherwise install the key and return `true`. -/
def Scheduler.registerDedupe (s : Scheduler) (tid mid jid : String) :
    Bool × Scheduler :=
  let key := tid ++ ":" ++ mid
  match lookupKey key s.dedupe with
  | some _ => (false, s)
  | none => (true, { s with dedupe := s.dedupe ++ [(key, jid)] })

/-- Embedding of `lookupDedupe`. -/
def Scheduler.lookupDedupe (s : Scheduler) (tid mid : String) : Option String :=
  lookupKey (tid ++ ":" ++ mid) s.dedupe

/-- Number of sessions currently holding a running job. -/
def Scheduler.countRunning (s : Scheduler) : Int :=
  ((s.sessions.filter fun p => p.2.running.isSome).length : Int)

/-- Scheduler operations, used to generate reachable states and traces. -/
inductive SchedOp
  | ensure (tid : String)
  | enq (tid jid : String)
  | start (tid : String)
  | finish (tid jid : String)
  | regDedupe (tid mid jid : String)
deriving DecidableEq, Repr

/-- Observable scheduling events of a trace. -/
inductive TraceEv
  | enq (tid jid : String)
  | started (tid jid : String)
  | finished (tid jid : String)
deriving DecidableEq, Repr

/-- Apply one operation; `none` models a thrown error (invalid history). -/
def Scheduler.applyOp (s : Scheduler) : SchedOp → Option (Scheduler × List TraceEv)
  | .ensure tid => some (s.ensureSession tid, [])
  | .enq tid jid =>
    match s.enqueue tid jid with
    | none => none
    | some s' => some (s', [.enq tid jid])
  | .start tid =>
    match s.startNext tid with
    | none => none
    | some (none, s') => some (s', [])
    | some (some jid, s') => some (s', [.started tid jid])
  | .finish tid jid =>
    match s.finishRunning tid jid with
    | none => none
    | some s' => some (s', [.finished tid jid])
  | .regDedupe tid mid jid => some ((s.registerDedupe tid mid jid).2, [])

/-- Run a list of operations, threading the state and concatenating traces;
`none` when some operation throws. -/
def Scheduler.runOps (s : Scheduler) : List SchedOp → Option (Scheduler × List TraceEv)
  | [] => some (s, [])
  | op :: rest =>
    match s.applyOp op with
    | none => none
    | some (s', tr) =>
      match Scheduler.runOps s' rest with
      | none => none
      | some (s'', tr') => some (s'', tr ++ tr')

/-- Jobs enqueued for a given thread, in trace order. -/
def enqueuedOf (tid : String) (tr : List TraceEv) : List String :=
  tr.filterMap fun
    | .enq t j => if t = tid then some j else none
    | _ => none

/-- Jobs started for a given thread, in trace order. -/
def startedOf (tid : String) (tr : List TraceEv) : List String :=
  tr.filterMap fun
    | .started t j => if t = tid then some j else none
    | _ => none

/-- Jobs finished for a given thread, in trace order. -/
def finishedOf (tid : String) (tr : List TraceEv) : List String :=
  tr.filterMap fun
    | .finished t j => if t = tid then some j else none
    | _ => none

/-- Pending queue of a thread in a scheduler state (empty when unknown). -/
def Scheduler.queueOf (s : Scheduler) (tid : String) : List String :=
  match lookupKey tid s.sessions with
  | some q => q.queue
  | none => []

/-- Running job of a thread as a zero- or one-element list. -/
def Scheduler.runningOf (s : Scheduler) (tid : String) : List String :=
  match lookupKey tid s.sessions with
  | some q => q.running.toList
  | none => []

/-- Reachable scheduler states: a fresh instance (constructor guard
`globalMaxRunning >= 1`) followed by any sequence of successful operations. -/
inductive SchedReachable (max : Int) : Scheduler → Prop
  | init : 1 ≤ max → SchedReachable max (Scheduler.init max)
  | step {s s' : Scheduler} {op : SchedOp} {tr : List TraceEv} :
      SchedReachable max s → s.applyOp op = some (s', tr) → SchedReachable max s'

/-! ### JobCoordinator (`src/runner/job-coordinator.ts`) -/

/-- Stable insertion of a session into a list already sorted by
`last_activity_at`, keeping earlier list elements in front on ties.  Together
with `sortByActivity` this models the stable `Array.prototype.sort` with the
comparator `a.last_activity_at.localeCompare(b.last_activity_at)`. -/
def insertByActivity (a : SessionEntity) : List SessionEntity → List SessionEntity
  | [] => [a]
  | b :: rest =>
    if strLe a.last_activity_at b.last_activity_at then a :: b :: rest
    else b :: insertByActivity a rest

/-- Stable sort of sessions by `last_activity_at` (the output of any stable
sort under a fixed comparator is unique, so insertion sort is an exact model
of the JS sort call in `pickNextRunnable`). -/
def sortByActivity : List SessionEntity → List SessionEntity
  | [] => []
  | a :: rest => insertByActivity a (sortByActivity rest)

/-- Eligibility test of the `pickNextRunnable` loop body: the session is not
currently being processed, has no running job, and has a queued job. -/
def runnableSession (runningThreads : List String) (s : SessionEntity) : Bool :=
  ¬ runningThreads.contains s.thread_id ∧ s.running_job_id = none ∧ ¬ s.queue.isEmpty

/-- Embedding of `JobCoordinator.pickNextRunnable`: sort `Object.values` of
the session map by `last_activity_at` (stable), then return the thread and
head job of the first session that passes the eligibility checks. -/
def pickNextRunnable (runningThreads : List String)
    (sessions : List SessionEntity) : Option (String × String) :=
  match (sortByActivity sessions).find? (runnableSession runningThreads) with
  | none => none
  | some s =>
    match s.queue with
    | [] => none
    | jid :: _ => some (s.thread_id, jid)

/-- One pass of the `kick` loop: admit runnable jobs while fewer than
`GLOBAL_MAX_RUNNING` threads are in flight.  The session map is constant
during the loop (state mutation happens later, inside the spawned
`processJob` tasks); each admitted thread is added to `runningThreads`, which
is what lets the loop terminate.  The fuel only bounds the recursion and is
never exhausted before the guard fails. -/
def kickLoop (fuel : Nat) (runningThreads : List String)
    (sessions : List SessionEntity) : List (String × String) :=
  match fuel with
  | 0 => []
  | fuel + 1 =>
    if runningThreads.length < GLOBAL_MAX_RUNNING then
      match pickNextRunnable runningThreads sessions with
      | none => []
      | some (tid, jid) => (tid, jid) :: kickLoop fuel (runningThreads ++ [tid]) sessions
    else []

/-- The jobs admitted by one `kick` invocation. -/
def kick (runningThreads : List String) (sessions : List SessionEntity) :
    List (String × String) :=
  kickLoop GLOBAL_MAX_RUNNING runningThreads sessions

/-! ### Parsed JSON values (`src/adapters/parsing.ts`) -/

/-- JSON values as produced by `JSON.parse` on one stdout line. -/
inductive Json
  | str (s : String)
  | num (n : Int)
  | jbool (b : Bool)
  | jnull
  | arr (items : List Json)
  | obj (fields : List (String × Json))

/-- The string value of a field, when the field exists and is a string
(the JS pattern `typeof obj[k] === "string"` plus the value itself). -/
def fieldStr (k : String) (fields : List (String × Json)) : Option String :=
  match lookupKey k fields with
  | some (.str s) => some s
  | _ => none

/-- Field presence, `obj[k] !== undefined`. -/
def hasField (k : String) (fields : List (String × Json)) : Bool :=
  (lookupKey k fields).isSome

/-!
Embedding of `visitText` from `parsing.ts`: strings are collected, arrays
are traversed elementwise, and objects contribute the values under the keys
`delta`, `text`, `content`, `message`, `response`, in that order.  The
mutual formulation precomputes the per-field visit results so the recursion
is by size; a parsed JS object never has duplicate keys, so looking the key
up in the precomputed table agrees with the source.
-/
mutual

/-- Text collection over one JSON value. -/
def visitText : Json → List String
  | .str s => if s.length > 0 then [s] else []
  | .arr items => visitTextList items
  | .obj fields =>
      let table := visitTextFields fields
      ["delta", "text", "content", "message", "response"].flatMap fun k =>
        match lookupKey k table with
        | some res => res
        | none => []
  | _ => []
termination_by j => sizeOf j

/-- Text collection over the elements of a JSON array. -/
def visitTextList : List Json → List String
  | [] => []
  | j :: rest => visitText j ++ visitTextList rest
termination_by l => sizeOf l

/-- Text collection for every field of a JSON object. -/
def visitTextFields : List (String × Json) → List (String × List String)
  | [] => []
  | (k, v) :: rest => (k, visitText v) :: visitTextFields rest
termination_by l => sizeOf l

end

/-- Embedding of `extractAssistantText` from `parsing.ts`: empty when a
`role` field exists and is not the string `assistant`, otherwise the
space-joined, trimmed text collected by `visitText`. -/
def extractAssistantText (event : List (String × Json)) : String :=
  if hasField "role" event ∧ fieldStr "role" event ≠ some "assistant" then ""
  else strTrim (String.intercalate " " (visitText (.obj event)))

/-- Text contributed by one content block of a claude `assistant` event
(blocks that are not objects, not of type `text`, or empty are skipped). -/
def textBlockChunk : Json → Option String
  | .obj b =>
      if fieldStr "type" b = some "text" then
        match fieldStr "text" b with
        | some t => if t.length > 0 then some t else none
        | none => none
      else none
  | _ => none

/-- Embedding of `extractClaudeAssistantText` (ClaudeAdapter document in the
repository): `assistant` events contribute the newline-joined trimmed text
blocks of `message.content`; `result` events with a non-empty string
`result` contribute that string. -/
def extractClaudeAssistantText (event : List (String × Json)) : String :=
  if fieldStr "type" event = some "assistant" then
    match lookupKey "message" event with
    | some (.obj message) =>
      if fieldStr "role" message = some "assistant" then
        match lookupKey "content" message with
        | some (.arr content) =>
            strTrim (String.intercalate "\n" (content.filterMap textBlockChunk))
        | _ => ""
      else ""
    | _ => ""
  else
    match fieldStr "result" event with
    | some r => if fieldStr "type" event = some "result" ∧ r.length > 0 then r else ""
    | none => ""

/-- Embedding of `parseCodexItem`: the nested `item` object of
`item.started` / `item.completed` events. -/
def parseCodexItem (event : List (String × Json)) : Option (List (String × Json)) :=
  if fieldStr "type" event = some "item.started" ∨
      fieldStr "type" event = some "item.completed" then
    match lookupKey "item" event with
    | some (.obj item) => some item
    | _ => none
  else none

/-- Embedding of `extractCodexAssistantText`: the trimmed `text` of an
`agent_message` item, empty otherwise. -/
def extractCodexAssistantText (event : List (String × Json)) : String :=
  match parseCodexItem event with
  | some item =>
    if fieldStr "type" item = some "agent_message" then
      match fieldStr "text" item with
      | some t => strTrim t
      | none => ""
    else ""
  | none => ""

/-- Embedding of `appendUnique` (identical in `codex-adapter.ts` and the
ClaudeAdapter document): drop empty chunks and chunks equal to the last
appended chunk. -/
def appendUnique (parts : List String) (text : String) : List String :=
  if text.length = 0 then parts
  else if parts.getLast? = some text then parts
  else parts ++ [text]

/-! ### Captured stdout lines -/

/-- Outcome of the per-line JSON-object heuristic and `JSON.parse` on one
captured stdout line (`isLikelyJsonObjectLine` / `tryParseJsonObject`): the
embedding records the outcome rather than re-implementing a JSON text
parser.  `raw` is a line failing the heuristic (kept as a diagnostic),
`jsonLine` parses to an object with the given fields, `malformed` passes the
heuristic but throws in `tryParseJsonObject` (with `errorToMessage` of the
throw).  Every constructor keeps the original line text. -/
inductive StreamLine
  | raw (text : String)
  | jsonLine (text : String) (fields : List (String × Json))
  | malformed (text : String) (message : String)

/-- Original text of a captured line. -/
def lineText : StreamLine → String
  | .raw t => t
  | .jsonLine t _ => t
  | .malformed t _ => t

/-! ### Post-run stdout passes of the three adapters -/

/-- Accumulator of the ClaudeAdapter post-run pass. -/
structure ClaudeScan where
  diagnostics : List String
  assistantParts : List String
  sessionId : Option String
  parseError : Option String

/-- Post-run pass of `ClaudeAdapter.run` over the stdout lines: non-JSON
lines are preserved as diagnostics, any line with a string `session_id`
updates the session key (last observed wins), assistant text is accumulated
with `appendUnique`, and a parse failure aborts the pass. -/
def claudeScanLoop (acc : ClaudeScan) : List StreamLine → ClaudeScan
  | [] => acc
  | .raw t :: rest =>
      claudeScanLoop { acc with diagnostics := acc.diagnostics ++ [t] } rest
  | .malformed _ m :: _ => { acc with parseError := some m }
  | .jsonLine _ fields :: rest =>
      claudeScanLoop
        { acc with
          sessionId :=
            match fieldStr "session_id" fields with
            | some s => some s
            | none => acc.sessionId
          assistantParts :=
            appendUnique acc.assistantParts (extractClaudeAssistantText fields) }
        rest

/-- The ClaudeAdapter post-run pass from the empty accumulator. -/
def claudeScan (lines : List StreamLine) : ClaudeScan :=
  claudeScanLoop ⟨[], [], none, none⟩ lines

/-- Accumulator of the CodexAdapter post-run pass. -/
structure CodexScan where
  diagnostics : List String
  assistantParts : List String
  threadId : Option String
  parseError : Option String

/-- Post-run pass of `CodexAdapter.run` over the stdout lines: the
`thread.started` event sets the thread key, any other event with a string
`thread_id` sets it only while it is still unset, and assistant text is
accumulated with `appendUnique`. -/
def codexScanLoop (acc : CodexScan) : List StreamLine → CodexScan
  | [] => acc
  | .raw t :: rest =>
      codexScanLoop { acc with diagnostics := acc.diagnostics ++ [t] } rest
  | .malformed _ m :: _ => { acc with parseError := some m }
  | .jsonLine _ fields :: rest =>
      codexScanLoop
        { acc with
          threadId :=
            match fieldStr "thread_id" fields with
            | some t =>
              if fieldStr "type" fields = some "thread.started" then some t
              else if acc.threadId = none then some t
              else acc.threadId
            | none => acc.threadId
          assistantParts :=
            appendUnique acc.assistantParts (extractCodexAssistantText fields) }
        rest

/-- The CodexAdapter post-run pass from the empty accumulator. -/
def codexScan (lines : List StreamLine) : CodexScan :=
  codexScanLoop ⟨[], [], none, none⟩ lines

/-- Return value of `parseGemini`. -/
structure GeminiParsed where
  sessionId : Option String
  assistantText : String
  diagnosticLogs : List String
  hasResult : Bool
  resultStatus : Option String
  parseError : Option String

/-- Accumulator of the GeminiAdapter stdout pass. -/
structure GeminiAcc where
  diagnostics : List String
  assistantParts : List String
  sessionId : Option String
  hasResult : Bool
  resultStatus : Option String

/-- Embedding of the `parseGemini` loop.  Any line with a string
`session_id` updates the session key (the separate `type == "init"` branch
of the source assigns the same value again and is absorbed here); `message`
events with role `assistant` push the `delta` string directly — with no
duplicate suppression — or, when `delta` is not a string, the non-empty
generic extraction; `result` events record completion and its `status`; a
parse failure returns early with the unjoined-untrimmed partial text. -/
def parseGeminiLoop (acc : GeminiAcc) : List StreamLine → GeminiParsed
  | [] =>
      ⟨acc.sessionId, strTrim (String.intercalate "\n" acc.assistantParts),
        acc.diagnostics, acc.hasResult, acc.resultStatus, none⟩
  | .raw t :: rest =>
      parseGeminiLoop { acc with diagnostics := acc.diagnostics ++ [t] } rest
  | .malformed _ m :: _ =>
      ⟨acc.sessionId, String.intercalate "\n" acc.assistantParts,
        acc.diagnostics, acc.hasResult, acc.resultStatus, some m⟩
  | .jsonLine _ fields :: rest =>
      parseGeminiLoop
        { acc with
          sessionId :=
            match fieldStr "session_id" fields with
            | some s => some s
            | none => acc.sessionId
          assistantParts :=
            if fieldStr "type" fields = some "message" ∧
                fieldStr "role" fields = some "assistant" then
              match fieldStr "delta" fields with
              | some d => acc.assistantParts ++ [d]
              | none =>
                let e := extractAssistantText fields
                if e.length > 0 then acc.assistantParts ++ [e] else acc.assistantParts
            else acc.assistantParts
          hasResult := acc.hasResult || fieldStr "type" fields = some "result"
          resultStatus :=
            if fieldStr "type" fields = some "result" then
              match fieldStr "status" fields with
              | some s => some s
              | none => acc.resultStatus
            else acc.resultStatus }
        rest

/-- The GeminiAdapter stdout pass from the empty accumulator. -/
def parseGemini (stdoutLines : List StreamLine) : GeminiParsed :=
  parseGeminiLoop ⟨[], [], none, false, none⟩ stdoutLines

/-! ### Adapter runs (`run` of each adapter over a list of process results) -/

/-- One child-process result, as observed by an adapter: exit code, timeout
flag, captured stdout lines (with their parse outcome) and stderr lines. -/
structure CommandRunResult where
  exitCode : Int
  timedOut : Bool
  stdoutLines : List StreamLine
  stderrLines : List String

/-- Embedding of `hasTransientErrorHint`: the newline-joined, lowercased
blob contains one of the five transient hints. -/
def hasTransientErrorHint (lines : List String) : Bool :=
  let blob := strLower (String.intercalate "\n" lines)
  strIncludes blob "quota" || strIncludes blob "retry" ||
    strIncludes blob "rate limit" || strIncludes blob "429" ||
    strIncludes blob "temporarily unavailable"

/-- Result of an adapter `run`, without the echoed stdout and stderr
captures (those are copies of the process result). -/
inductive AdapterRunOutcome
  | ok (assistantText : String) (adapterState : AdapterState)
      (diagnosticLogs : List String)
  | fail (errorCode : ErrorCode) (errorMessage : String) (assistantText : String)
      (adapterState : AdapterState) (diagnosticLogs : List String)

/-- Error code of an adapter run outcome, `none` on success. -/
def AdapterRunOutcome.errorCode? : AdapterRunOutcome → Option ErrorCode
  | .ok _ _ _ => none
  | .fail c _ _ _ _ => some c

/-- The failure returned when spawning the child process itself throws. -/
def spawnFailureOutcome (msg : String) : AdapterRunOutcome :=
  .fail .E_CLI_EXIT_NONZERO msg "" ⟨none, none⟩ []

/-- Adapter state `{ session_id }` when a key was observed, `{}` otherwise. -/
def sessionIdState : Option String → AdapterState
  | some sid => ⟨some sid, none⟩
  | none => ⟨none, none⟩

/-- One attempt of `GeminiAdapter.run` over a process result; `none` models
the `continue` that triggers the single transient retry. -/
def geminiAttempt (attempt : Nat) (r : CommandRunResult) : Option AdapterRunOutcome :=
  if r.timedOut then
    some (.fail .E_CLI_TIMEOUT "gemini command timed out" "" ⟨none, none⟩ [])
  else
    let parsed := parseGemini r.stdoutLines
    match parsed.parseError with
    | some m =>
        some (.fail .E_ADAPTER_PARSE m parsed.assistantText ⟨none, none⟩
          parsed.diagnosticLogs)
    | none =>
      if r.exitCode ≠ 0 then
        let combined := r.stdoutLines.map lineText ++ r.stderrLines ++
          parsed.diagnosticLogs
        if attempt = 1 ∧ hasTransientErrorHint combined then none
        else
          some (.fail .E_CLI_EXIT_NONZERO
            ("gemini exited with code " ++ toString r.exitCode)
            parsed.assistantText (sessionIdState parsed.sessionId)
            parsed.diagnosticLogs)
      else if ¬ parsed.hasResult then
        some (.fail .E_ADAPTER_MISSING_RESULT
          "gemini stream-json missing result event" parsed.assistantText
          (sessionIdState parsed.sessionId) parsed.diagnosticLogs)
      else if parsed.resultStatus ≠ some "success" then
        some (.fail .E_CLI_EXIT_NONZERO
          ("gemini result status is " ++ (parsed.resultStatus.getD "unknown"))
          parsed.assistantText (sessionIdState parsed.sessionId)
          parsed.diagnosticLogs)
      else
        match parsed.sessionId with
        | none =>
            some (.fail .E_ADAPTER_SESSION_KEY_MISSING
              "gemini did not emit session_id" parsed.assistantText ⟨none, none⟩
              parsed.diagnosticLogs)
        | some sid =>
            some (.ok parsed.assistantText ⟨some sid, none⟩ parsed.diagnosticLogs)

/-- Embedding of `GeminiAdapter.run` against a runner modelled as the list
of process results it will produce (one per invocation, a missing entry
models a spawn failure).  Returns the final result together with the number
of child-process invocations performed. -/
def geminiRun (replies : List CommandRunResult) : AdapterRunOutcome × Nat :=
  match replies with
  | [] => (spawnFailureOutcome "spawn failure", 1)
  | r1 :: rest =>
    match geminiAttempt 1 r1 with
    | some out => (out, 1)
    | none =>
      match rest with
      | [] => (spawnFailureOutcome "spawn failure", 2)
      | r2 :: _ =>
        match geminiAttempt 2 r2 with
        | some out => (out, 2)
        | none => (.fail .E_CLI_EXIT_NONZERO "gemini retry exhausted" ""
            ⟨none, none⟩ [], 2)

/-- Post-run classification of `CodexAdapter.run` on one process result. -/
def codexOutcome (r : CommandRunResult) : AdapterRunOutcome :=
  if r.timedOut then
    .fail .E_CLI_TIMEOUT "codex command timed out" "" ⟨none, none⟩ []
  else
    let scan := codexScan r.stdoutLines
    match scan.parseError with
    | some m =>
        .fail .E_ADAPTER_PARSE m (String.intercalate "\n" scan.assistantParts)
          ⟨none, none⟩ scan.diagnostics
    | none =>
      let text := strTrim (String.intercalate "\n" scan.assistantParts)
      if r.exitCode ≠ 0 then
        .fail .E_CLI_EXIT_NONZERO ("codex exited with code " ++ toString r.exitCode)
          text ⟨none, scan.threadId⟩ scan.diagnostics
      else
        match scan.threadId with
        | none =>
            .fail .E_ADAPTER_SESSION_KEY_MISSING "codex did not emit thread_id"
              text ⟨none, none⟩ scan.diagnostics
        | some tid => .ok text ⟨none, some tid⟩ scan.diagnostics

/-- Embedding of `CodexAdapter.run`: a single invocation, never a retry. -/
def codexRun (replies : List CommandRunResult) : AdapterRunOutcome × Nat :=
  match replies with
  | [] => (spawnFailureOutcome "spawn failure", 1)
  | r :: _ => (codexOutcome r, 1)

/-- Post-run classification of `ClaudeAdapter.run` on one process result. -/
def claudeOutcome (r : CommandRunResult) : AdapterRunOutcome :=
  if r.timedOut then
    .fail .E_CLI_TIMEOUT "claude command timed out" "" ⟨none, none⟩ []
  else
    let scan := claudeScan r.stdoutLines
    let text := strTrim (String.intercalate "\n" scan.assistantParts)
    match scan.parseError with
    | some m => .fail .E_ADAPTER_PARSE m text ⟨none, none⟩ scan.diagnostics
    | none =>
      if r.exitCode ≠ 0 then
        .fail .E_CLI_EXIT_NONZERO ("claude exited with code " ++ toString r.exitCode)
          text (sessionIdState scan.sessionId) scan.diagnostics
      else
        match scan.sessionId with
        | none =>
            .fail .E_ADAPTER_SESSION_KEY_MISSING "claude did not emit session_id"
              text ⟨none, none⟩ scan.diagnostics
        | some sid => .ok text ⟨some sid, none⟩ scan.diagnostics

/-- Embedding of `ClaudeAdapter.run`: a single invocation, never a retry. -/
def claudeRun (replies : List CommandRunResult) : AdapterRunOutcome × Nat :=
  match replies with
  | [] => (spawnFailureOutcome "spawn failure", 1)
  | r :: _ => (claudeOutcome r, 1)

/-! ### Argv construction -/

/-- JS truthiness of the optional `resumeKey` (absent or empty is falsy). -/
def jsTruthyStr : Option String → Bool
  | none => false
  | some s => s ≠ ""

/-- Embedding of `CodexAdapter.buildArgs` (the adapter document exercised by
`tests/adapters/adapters.test.ts`). -/
def codexBuildArgs (prompt : String) (resumeKey : Option String) : List String :=
  if jsTruthyStr resumeKey then
    ["exec", "--dangerously-bypass-approvals-and-sandbox", "resume",
      resumeKey.getD "", "--json", prompt]
  else
    ["exec", "--dangerously-bypass-approvals-and-sandbox", "--json", prompt]

/-- Embedding of `GeminiAdapter.buildArgs`. -/
def geminiBuildArgs (prompt : String) (resumeKey : Option String) : List String :=
  let args := ["-p", prompt, "--output-format", "stream-json"]
  if jsTruthyStr resumeKey then args ++ ["--resume", resumeKey.getD ""] else args

/-- Embedding of `ClaudeAdapter.buildArgs` (ClaudeAdapter document with the
skip-permissions flag). -/
def claudeBuildArgs (prompt : String) (resumeKey : Option String) : List String :=
  let args := ["-p", "--dangerously-skip-permissions", "--verbose",
    "--output-format", "stream-json"]
  (if jsTruthyStr resumeKey then args ++ ["-r", resumeKey.getD ""] else args) ++ [prompt]

/-! ### Concrete demonstration states used by the witnesses -/

/-- Runtime state with one session `ta` (thread created at `t0`). -/
def demoState0 : RuntimeState :=
  applyEvent RuntimeState.empty "t0" (.SessionCreated "ta" "my-app" .gemini ⟨none, none⟩)

/-- State after the message `m1` has been enqueued once on thread `ta`. -/
def demoState1 : RuntimeState :=
  (enqueueThreadMessage "o" demoState0 "o" "ta" "m1" "hello" "job1" "t1").state

/-- The same enqueue request sent twice back to back. -/
def demoReqs : List EnqueueReq :=
  [⟨"o", "ta", "m1", "hello", "job1", "t1"⟩, ⟨"o", "ta", "m1", "hello", "job2", "t2"⟩]

/-- A pending queue of twenty distinct job ids. -/
def demoFullQueue : List String :=
  (List.range MAX_QUEUE_PER_SESSION).map fun i => "q" ++ toString i

/-- Session `tb` whose queue already holds twenty entries. -/
def demoFullSession : SessionEntity :=
  ⟨"tb", "my-app", .gemini, ⟨none, none⟩, demoFullQueue, none, none, "t0", "t0", "t0"⟩

/-- State with the full session `tb` and one dedup entry for `tb:m0`. -/
def demoFullState : RuntimeState :=
  ⟨[("tb", demoFullSession)], [], [("tb:m0", "job0")]⟩

/-- Session `tb` with nineteen pending entries. -/
def demoNearFullSession : SessionEntity :=
  ⟨"tb", "my-app", .gemini, ⟨none, none⟩, demoFullQueue.tail, none, none, "t0", "t0", "t0"⟩

/-- State with the nineteen-entry session `tb`. -/
def demoNearFullState : RuntimeState :=
  ⟨[("tb", demoNearFullSession)], [], []⟩

/-- Scheduler state with both running slots taken and one queued thread. -/
def demoCapSched : Scheduler :=
  ⟨2, [("ta", ⟨[], some "j1"⟩), ("tb", ⟨[], some "j2"⟩), ("tc", ⟨["j3"], none⟩)], [], 2⟩

/-- One single-thread scheduler history: two enqueues, start, finish, start. -/
def demoFifoOps : List SchedOp :=
  [.ensure "ta", .enq "ta" "j1", .enq "ta" "j2", .start "ta",
    .finish "ta" "j1", .start "ta"]

/-- Scheduler state after `demoFifoOps`. -/
def demoFifoSched : Scheduler := ⟨2, [("ta", ⟨[], some "j2"⟩)], [], 1⟩

/-- Trace produced by `demoFifoOps`. -/
def demoFifoTrace : List TraceEv :=
  [.enq "ta" "j1", .enq "ta" "j2", .started "ta" "j1",
    .finished "ta" "j1", .started "ta" "j2"]

/-- A job of thread `ta` caught mid-flight by a crash. -/
def demoRunningJob : JobEntity :=
  ⟨"j1", "ta", "m1", .running, "hello", .gemini, 1, none, none, some "t1", none, none⟩

/-- An already finished job that recovery must not touch. -/
def demoDoneJob : JobEntity :=
  ⟨"j2", "ta", "m2", .success, "bye", .gemini, 1, none, none, some "t0", some "t1",
    some "ok"⟩

/-- The session owning the mid-flight job. -/
def demoCrashSession : SessionEntity :=
  ⟨"ta", "my-app", .gemini, ⟨none, none⟩, [], some "j1", none, "t0", "t0", "t1"⟩

/-- Replayed state just before crash recovery runs. -/
def demoCrashState : RuntimeState :=
  ⟨[("ta", demoCrashSession)], [("j1", demoRunningJob), ("j2", demoDoneJob)], []⟩

/-- The crash session as recovery leaves it. -/
def demoClearedSession : SessionEntity :=
  { demoCrashSession with running_job_id := none, last_job_id := some "j1" }

/-- One gemini assistant-delta stdout line carrying the chunk `Hi`. -/
def demoDeltaLine : StreamLine :=
  .jsonLine "gemini delta line"
    [("type", .str "message"), ("role", .str "assistant"), ("delta", .str "Hi")]

/-- A failed gemini invocation: nonzero exit, a quota hint on stderr, and one
JSON-looking stdout line that does not parse. -/
def demoQuotaReply : CommandRunResult :=
  ⟨1, false, [.malformed "{oops}" "Unexpected token o in JSON"],
    ["quota exceeded, retry later"]⟩

/-- A clean successful gemini invocation. -/
def demoOkReply : CommandRunResult :=
  ⟨0, false,
    [.jsonLine "init line" [("type", .str "init"), ("session_id", .str "gmn-2")],
      .jsonLine "result line" [("type", .str "result"), ("status", .str "success")]],
    []⟩

/-- Runnable session on thread `tb`, created first (earlier in the map). -/
def demoSessionB : SessionEntity :=
  ⟨"tb", "my-app", .gemini, ⟨none, none⟩, ["jb"], none, none, "t0", "t0", "t5"⟩

/-- Runnable session on thread `ta`, created second, same `last_activity_at`. -/
def demoSessionA : SessionEntity :=
  ⟨"ta", "my-app", .gemini, ⟨none, none⟩, ["ja"], none, none, "t0", "t0", "t5"⟩

/-- A failed gemini invocation whose stdout parses cleanly: the quota hint
on stderr makes the transient retry fire. -/
def demoQuotaCleanReply : CommandRunResult :=
  ⟨1, false, [], ["quota exceeded, retry later"]⟩

/-! ## Theorems -/

/-! ### Helper lemmas on the string order and association lists -/

theorem charsLe_refl (a : List Char) : charsLe a a = true := by
  induction a with
  | nil => rfl
  | cons c cs ih => simp [charsLe, ih]

theorem charsLe_total (a b : List Char) : charsLe a b = true ∨ charsLe b a = true := by
  induction a generalizing b with
  | nil => left; rfl
  | cons c cs ih =>
    cases b with
    | nil => right; rfl
    | cons d ds =>
      by_cases h1 : c < d
      · left; simp [charsLe, h1]
      · by_cases h2 : d < c
        · right; simp [charsLe, h2]
        · have := ih ds
          cases this with
          | inl h => left; simp [charsLe, h1, h2, h]
          | inr h => right; simp [charsLe, h1, h2, h]

theorem strLe_refl (a : String) : strLe a a = true := charsLe_refl a.data

theorem strLe_total (a b : String) : strLe a b = true ∨ strLe b a = true :=
  charsLe_total a.data b.data

theorem lookupKey_setKey (k k' : String) (f : β → β) (l : List (String × β)) :
    lookupKey k (setKey k' f l) =
      if k = k' then (lookupKey k l).map f else lookupKey k l := by
  induction l with
  | nil => by_cases h : k = k' <;> simp [setKey, lookupKey, h]
  | cons p rest ih =>
    by_cases hp : p.1 = k'
    · by_cases hk : k = k'
      · subst hk; simp [setKey, hp, lookupKey]
      · have hk' : ¬ k' = k := fun h => hk h.symm
        simp [setKey, hp, lookupKey, hk', ih, hk]
    · by_cases hpk : p.1 = k
      · have hk : ¬ k = k' := fun h => hp (hpk.trans h)
        simp [setKey, hp, lookupKey, hpk, hk]
      · simp [setKey, hp, lookupKey, hpk, ih]

theorem lookupKey_assign (k k' : String) (v : β) (l : List (String × β)) :
    lookupKey k (assign k' v l) = if k = k' then some v else lookupKey k l := by
  induction l with
  | nil =>
    by_cases h : k = k'
    · subst h; simp [assign, lookupKey]
    · have h' : ¬ k' = k := fun hh => h hh.symm
      simp [assign, lookupKey, h, h']
  | cons p rest ih =>
    by_cases hp : p.1 = k'
    · by_cases hk : k = k'
      · subst hk; simp [assign, hp, lookupKey]
      · have hk' : ¬ k' = k := fun h => hk h.symm
        simp [assign, hp, lookupKey, hk', hk]
    · by_cases hpk : p.1 = k
      · have hk : ¬ k = k' := fun h => hp (hpk.trans h)
        simp [assign, hp, lookupKey, hpk, hk]
      · simp [assign, hp, lookupKey, hpk, ih]

theorem lookupKey_append_last (k : String) (v : β) (l : List (String × β)) :
    lookupKey k (l ++ [(k, v)]) = some ((lookupKey k l).getD v) := by
  induction l with
  | nil => simp [lookupKey]
  | cons p rest ih =>
    by_cases hp : p.1 = k <;> simp [lookupKey, hp, ih]

/-! ### Helper lemmas on enqueue histories -/

theorem countDedupeKey_append (k : String) (a b : List EventBody) :
    countDedupeKey k (a ++ b) = countDedupeKey k a + countDedupeKey k b := by
  simp [countDedupeKey, List.filter_append]

theorem countDedupeKey_enqueued (k t j m p : String) (tool : ToolName) (n : Nat) :
    countDedupeKey k [EventBody.JobEnqueued t j m p tool n] =
      if dedupeKeyFor t m = k then 1 else 0 := by
  by_cases h : dedupeKeyFor t m = k <;>
    simp [countDedupeKey, List.filter, eventDedupeKey, h]

theorem enqueue_split (o : String) (st : RuntimeState) (u t m p j ts : String) :
    ((enqueueThreadMessage o st u t m p j ts).state = st ∧
      (enqueueThreadMessage o st u t m p j ts).events = []) ∨
    ∃ sess, lookupKey t st.sessions = some sess ∧
      lookupKey (dedupeKeyFor t m) st.dedupe = none ∧
      sess.queue.length < MAX_QUEUE_PER_SESSION ∧
      enqueueThreadMessage o st u t m p j ts =
        ⟨.ok ⟨j, false⟩, applyEvent st ts (.JobEnqueued t j m p sess.tool 1),
          [.JobEnqueued t j m p sess.tool 1]⟩ := by
  by_cases hu : u ≠ o
  · left; simp [enqueueThreadMessage, hu]
  · cases hses : lookupKey t st.sessions with
    | none => left; simp [enqueueThreadMessage, hu, hses]
    | some sess =>
      cases hdk : lookupKey (dedupeKeyFor t m) st.dedupe with
      | some e => left; simp [enqueueThreadMessage, hu, hses, hdk]
      | none =>
        by_cases hq : MAX_QUEUE_PER_SESSION ≤ sess.queue.length
        · left; simp [enqueueThreadMessage, hu, hses, hdk, hq]
        · right
          refine ⟨sess, rfl, rfl, by omega, ?_⟩
          simp [enqueueThreadMessage, hu, hses, hdk, hq]

theorem runEnqueues_count_present (o : String) :
    ∀ (reqs : List EnqueueReq) (st : RuntimeState) (k x : String),
      lookupKey k st.dedupe = some x →
      countDedupeKey k (runEnqueues o st reqs).2 = 0 := by
  intro reqs
  induction reqs with
  | nil => intro st k x _; simp [runEnqueues, countDedupeKey]
  | cons r rest ih =>
    intro st k x h
    rcases enqueue_split o st r.userId r.threadId r.messageId r.prompt r.newJobId r.ts
      with ⟨hst, hev⟩ | ⟨sess, _, hdk, _, heq⟩
    · simp only [runEnqueues, countDedupeKey_append, hev, hst]
      simpa [countDedupeKey] using ih st k x h
    · have hkne : dedupeKeyFor r.threadId r.messageId ≠ k := by
        intro hk; rw [hk] at hdk; rw [hdk] at h; exact Option.noConfusion h
      have hkne' : ¬ k = dedupeKeyFor r.threadId r.messageId := fun hk => hkne hk.symm
      have hstate : (enqueueThreadMessage o st r.userId r.threadId r.messageId
          r.prompt r.newJobId r.ts).state.dedupe =
          assign (dedupeKeyFor r.threadId r.messageId) r.newJobId st.dedupe := by
        rw [heq]; rfl
      have hlook : lookupKey k (enqueueThreadMessage o st r.userId r.threadId
          r.messageId r.prompt r.newJobId r.ts).state.dedupe = some x := by
        rw [hstate, lookupKey_assign, if_neg hkne']; exact h
      have hev : (enqueueThreadMessage o st r.userId r.threadId r.messageId
          r.prompt r.newJobId r.ts).events =
          [.JobEnqueued r.threadId r.newJobId r.messageId r.prompt sess.tool 1] := by
        rw [heq]
      have htail := ih _ k x hlook
      simp only [runEnqueues, countDedupeKey_append, hev, countDedupeKey_enqueued, hkne,
        if_false, htail]

theorem runEnqueues_count_fresh (o : String) :
    ∀ (reqs : List EnqueueReq) (st : RuntimeState) (k : String),
      lookupKey k st.dedupe = none →
      countDedupeKey k (runEnqueues o st reqs).2 ≤ 1 := by
  intro reqs
  induction reqs with
  | nil => intro st k _; simp [runEnqueues, countDedupeKey]
  | cons r rest ih =>
    intro st k h
    rcases enqueue_split o st r.userId r.threadId r.messageId r.prompt r.newJobId r.ts
      with ⟨hst, hev⟩ | ⟨sess, _, hdk, _, heq⟩
    · simp only [runEnqueues, countDedupeKey_append, hev, hst]
      simpa [countDedupeKey] using ih st k h
    · have hstate : (enqueueThreadMessage o st r.userId r.threadId r.messageId
          r.prompt r.newJobId r.ts).state.dedupe =
          assign (dedupeKeyFor r.threadId r.messageId) r.newJobId st.dedupe := by
        rw [heq]; rfl
      have hev : (enqueueThreadMessage o st r.userId r.threadId r.messageId
          r.prompt r.newJobId r.ts).events =
          [.JobEnqueued r.threadId r.newJobId r.messageId r.prompt sess.tool 1] := by
        rw [heq]
      by_cases hk : dedupeKeyFor r.threadId r.messageId = k
      · have hlook : lookupKey k (enqueueThreadMessage o st r.userId r.threadId
            r.messageId r.prompt r.newJobId r.ts).state.dedupe = some r.newJobId := by
          rw [hstate, lookupKey_assign, if_pos hk.symm]
        have htail := runEnqueues_count_present o rest _ k r.newJobId hlook
        simp only [runEnqueues, countDedupeKey_append, hev, countDedupeKey_enqueued, hk,
          if_true, htail]
        omega
      · have hk' : ¬ k = dedupeKeyFor r.threadId r.messageId := fun hkk => hk hkk.symm
        have hlook : lookupKey k (enqueueThreadMessage o st r.userId r.threadId
            r.messageId r.prompt r.newJobId r.ts).state.dedupe = none := by
          rw [hstate, lookupKey_assign, if_neg hk']; exact h
        have htail := ih _ k hlook
        simp only [runEnqueues, countDedupeKey_append, hev, countDedupeKey_enqueued, hk,
          if_false]
        omega

theorem runEnqueues_queue_bound (o : String) :
    ∀ (reqs : List EnqueueReq) (st : RuntimeState),
      (∀ tid s, lookupKey tid st.sessions = some s →
        s.queue.length ≤ MAX_QUEUE_PER_SESSION) →
      ∀ tid s, lookupKey tid (runEnqueues o st reqs).1.sessions = some s →
        s.queue.length ≤ MAX_QUEUE_PER_SESSION := by
  intro reqs
  induction reqs with
  | nil => intro st hst tid s h; exact hst tid s (by simpa [runEnqueues] using h)
  | cons r rest ih =>
    intro st hst tid s h
    rcases enqueue_split o st r.userId r.threadId r.messageId r.prompt r.newJobId r.ts
      with ⟨hstate, _⟩ | ⟨sess, hses, _, hlen, heq⟩
    · refine ih st hst tid s ?_
      simpa [runEnqueues, hstate] using h
    · have hsessions : (enqueueThreadMessage o st r.userId r.threadId r.messageId
          r.prompt r.newJobId r.ts).state.sessions =
          setKey r.threadId
            (fun se => { se with queue := se.queue ++ [r.newJobId],
                                 last_activity_at := r.ts }) st.sessions := by
        rw [heq]; rfl
      refine ih _ ?_ tid s (by simpa [runEnqueues] using h)
      intro tid' s' h'
      rw [hsessions, lookupKey_setKey] at h'
      by_cases ht : tid' = r.threadId
      · rw [if_pos ht, ht, hses] at h'
        rw [Option.map_some'] at h'
        cases h'
        simpa using hlen
      · rw [if_neg ht] at h'
        exact hst tid' s' h'

/-! ### Claim C1: exactly-once enqueue by dedup key -/

/-- C1: an enqueue call whose dedup key `thread_id + ":" + message_id` is
already in the dedup index returns the existing job id with `deduped = true`
and appends no event; a call with a fresh key appends exactly one
`JobEnqueued` event, which installs the key; consequently any history of
enqueue calls carries at most one `JobEnqueued` event per dedup key; and the
scheduler's `registerDedupe` refuses a key it has installed. -/
theorem enqueue_exactly_once_dedup
    (ownerId : String) (st : RuntimeState) (threadId messageId prompt jid ts : String) :
    (∀ existing, (lookupKey threadId st.sessions).isSome = true →
      lookupKey (dedupeKeyFor threadId messageId) st.dedupe = some existing →
      enqueueThreadMessage ownerId st ownerId threadId messageId prompt jid ts =
        ⟨.ok ⟨existing, true⟩, st, []⟩) ∧
    (∀ sess, lookupKey threadId st.sessions = some sess →
      lookupKey (dedupeKeyFor threadId messageId) st.dedupe = none →
      sess.queue.length < MAX_QUEUE_PER_SESSION →
      (enqueueThreadMessage ownerId st ownerId threadId messageId prompt jid ts).events =
          [.JobEnqueued threadId jid messageId prompt sess.tool 1] ∧
        lookupKey (dedupeKeyFor threadId messageId)
          (enqueueThreadMessage ownerId st ownerId threadId messageId prompt jid
            ts).state.dedupe = some jid) ∧
    (∀ (reqs : List EnqueueReq) (k : String), lookupKey k st.dedupe = none →
      countDedupeKey k (runEnqueues ownerId st reqs).2 ≤ 1) ∧
    (∀ (sch : Scheduler) (tid mid j1 j2 : String),
      (sch.registerDedupe tid mid j1).1 = true →
      (sch.registerDedupe tid mid j1).2.registerDedupe tid mid j2 =
        (false, (sch.registerDedupe tid mid j1).2)) := by
  refine ⟨?_, ?_, ?_, ?_⟩
  · intro existing hses hdk
    cases hs : lookupKey threadId st.sessions with
    | none => rw [hs] at hses; cases hses
    | some sess => simp [enqueueThreadMessage, hs, hdk]
  · intro sess hses hdk hq
    have hq' : ¬ MAX_QUEUE_PER_SESSION ≤ sess.queue.length := by omega
    have hdk' : lookupKey (threadId ++ ":" ++ messageId) st.dedupe = none := hdk
    refine ⟨by simp [enqueueThreadMessage, hses, hdk, hq'], ?_⟩
    simp [enqueueThreadMessage, hses, hdk, hdk', hq', applyEvent, lookupKey_assign,
      dedupeKeyFor]
  · intro reqs k h
    exact runEnqueues_count_fresh ownerId reqs st k h
  · intro sch tid mid j1 j2 hreg
    cases hdk : lookupKey (tid ++ ":" ++ mid) sch.dedupe with
    | some v => simp [Scheduler.registerDedupe, hdk] at hreg
    | none =>
      have h2 : lookupKey (tid ++ ":" ++ mid)
          (sch.dedupe ++ [(tid ++ ":" ++ mid, j1)]) = some j1 := by
        rw [lookupKey_append_last, hdk]; rfl
      simp [Scheduler.registerDedupe, hdk, h2]

/-- Witness for C1: at the demo state the duplicate of message m1 is answered
with job1 and no event, the original fresh enqueue appended exactly one
JobEnqueued event, the duplicated two-request history carries the key ta:m1
at most once, and a repeated registerDedupe is refused. -/
theorem enqueue_exactly_once_dedup_witness :
    enqueueThreadMessage "o" demoState1 "o" "ta" "m1" "again" "job2" "t2" =
        ⟨.ok ⟨"job1", true⟩, demoState1, []⟩ ∧
      (enqueueThreadMessage "o" demoState0 "o" "ta" "m1" "hello" "job1" "t1").events =
        [.JobEnqueued "ta" "job1" "m1" "hello" .gemini 1] ∧
      countDedupeKey "ta:m1" (runEnqueues "o" demoState0 demoReqs).2 ≤ 1 ∧
      ((Scheduler.init 2).registerDedupe "ta" "m1" "j1").2.registerDedupe "ta" "m1" "j2" =
        (false, ((Scheduler.init 2).registerDedupe "ta" "m1" "j1").2) :=
  ⟨(enqueue_exactly_once_dedup "o" demoState1 "ta" "m1" "again" "job2" "t2").1
      "job1" (by decide) (by decide),
    ((enqueue_exactly_once_dedup "o" demoState0 "ta" "m1" "hello" "job1" "t1").2.1
      ⟨"ta", "my-app", .gemini, ⟨none, none⟩, [], none, none, "t0", "t0", "t0"⟩
      (by decide) (by decide) (by decide)).1,
    (enqueue_exactly_once_dedup "o" demoState0 "ta" "m1" "hello" "job1" "t1").2.2.1
      demoReqs "ta:m1" (by decide),
    (enqueue_exactly_once_dedup "o" demoState0 "ta" "m1" "hello" "job1" "t1").2.2.2
      (Scheduler.init 2) "ta" "m1" "j1" "j2" (by decide)⟩

/-! ### Claim C4: queue backpressure boundary -/

/-- C4: with a fresh message id on an existing session, enqueue throws
`E_QUEUE_FULL` — with the state untouched and no event appended — precisely
when the session queue has reached `MAX_QUEUE_PER_SESSION`; an enqueue at
nineteen pending succeeds and brings the queue to exactly twenty; and no
history of enqueue calls ever pushes a queue past twenty, so the reject
boundary is exactly a queue of twenty. -/
theorem queue_backpressure_boundary
    (ownerId : String) (st : RuntimeState) (threadId messageId prompt jid ts : String)
    (sess : SessionEntity)
    (hses : lookupKey threadId st.sessions = some sess)
    (hdk : lookupKey (dedupeKeyFor threadId messageId) st.dedupe = none) :
    ((enqueueThreadMessage ownerId st ownerId threadId messageId prompt jid ts).result
        = .error .E_QUEUE_FULL ↔ MAX_QUEUE_PER_SESSION ≤ sess.queue.length) ∧
    (MAX_QUEUE_PER_SESSION ≤ sess.queue.length →
      enqueueThreadMessage ownerId st ownerId threadId messageId prompt jid ts =
        ⟨.error .E_QUEUE_FULL, st, []⟩) ∧
    (sess.queue.length = MAX_QUEUE_PER_SESSION - 1 →
      ∃ sess', lookupKey threadId
          (enqueueThreadMessage ownerId st ownerId threadId messageId prompt jid
            ts).state.sessions = some sess' ∧
        sess'.queue.length = MAX_QUEUE_PER_SESSION ∧
        (enqueueThreadMessage ownerId st ownerId threadId messageId prompt jid
          ts).result = .ok ⟨jid, false⟩) ∧
    (∀ (reqs : List EnqueueReq),
      (∀ tid s, lookupKey tid st.sessions = some s →
        s.queue.length ≤ MAX_QUEUE_PER_SESSION) →
      ∀ tid s, lookupKey tid (runEnqueues ownerId st reqs).1.sessions = some s →
        s.queue.length ≤ MAX_QUEUE_PER_SESSION) := by
  refine ⟨?_, ?_, ?_, ?_⟩
  · by_cases hq : MAX_QUEUE_PER_SESSION ≤ sess.queue.length <;>
      simp [enqueueThreadMessage, hses, hdk, hq]
  · intro hq
    simp [enqueueThreadMessage, hses, hdk, hq]
  · intro h19
    have hq' : ¬ MAX_QUEUE_PER_SESSION ≤ sess.queue.length := by
      rw [h19]; decide
    refine ⟨{ sess with queue := sess.queue ++ [jid], last_activity_at := ts }, ?_, ?_, ?_⟩
    · simp only [enqueueThreadMessage, hses, hdk, hq']
      simp only [ne_eq, not_true_eq_false, if_false, ite_false]
      simp [applyEvent, lookupKey_setKey, hses]
    · simp only [SessionEntity.queue]
      rw [List.length_append, h19]
      rfl
    · simp [enqueueThreadMessage, hses, hdk, hq']
  · intro reqs hb tid s h
    exact runEnqueues_queue_bound ownerId reqs st hb tid s h

/-- Witness for C4: the twenty-first message on the full session tb is
rejected with no event, while an enqueue on the nineteen-entry session
succeeds and lands the queue at exactly twenty. -/
theorem queue_backpressure_boundary_witness :
    enqueueThreadMessage "o" demoFullState "o" "tb" "m1" "p" "j21" "t1" =
        ⟨.error .E_QUEUE_FULL, demoFullState, []⟩ ∧
      ∃ sess', lookupKey "tb"
          (enqueueThreadMessage "o" demoNearFullState "o" "tb" "m1" "p" "j20"
            "t1").state.sessions = some sess' ∧
        sess'.queue.length = MAX_QUEUE_PER_SESSION ∧
        (enqueueThreadMessage "o" demoNearFullState "o" "tb" "m1" "p" "j20"
          "t1").result = .ok ⟨"j20", false⟩ :=
  ⟨(queue_backpressure_boundary "o" demoFullState "tb" "m1" "p" "j21" "t1"
      demoFullSession (by decide) (by decide)).2.1 (by decide),
    (queue_backpressure_boundary "o" demoNearFullState "tb" "m1" "p" "j20" "t1"
      demoNearFullSession (by decide) (by decide)).2.2.1 (by decide)⟩

/-! ### Claim C10: dedup lookup precedes the queue-full check -/

/-- C10: a duplicate of an already-enqueued message succeeds with the
existing job id even when the session queue already holds
`MAX_QUEUE_PER_SESSION` entries — the dedup lookup happens before the
queue-full check, so a duplicate is never rejected with `E_QUEUE_FULL`. -/
theorem dedup_wins_over_queue_full
    (ownerId : String) (st : RuntimeState)
    (threadId messageId prompt jid ts existing : String) (sess : SessionEntity)
    (hses : lookupKey threadId st.sessions = some sess)
    (hfull : MAX_QUEUE_PER_SESSION ≤ sess.queue.length)
    (hdk : lookupKey (dedupeKeyFor threadId messageId) st.dedupe = some existing) :
    enqueueThreadMessage ownerId st ownerId threadId messageId prompt jid ts =
      ⟨.ok ⟨existing, true⟩, st, []⟩ := by
  simp [enqueueThreadMessage, hses, hdk]

/-- Witness for C10: on the session tb whose queue holds twenty entries, the
duplicate of message m0 still returns job0 with the dedup flag. -/
theorem dedup_wins_over_queue_full_witness :
    enqueueThreadMessage "o" demoFullState "o" "tb" "m0" "p" "jx" "t1" =
      ⟨.ok ⟨"job0", true⟩, demoFullState, []⟩ :=
  dedup_wins_over_queue_full "o" demoFullState "tb" "m0" "p" "jx" "t1" "job0"
    demoFullSession (by decide) (by decide) (by decide)

/-! ### Claim C9: codex argv construction -/

/-- C9: without a resume key the codex argv is exactly
`exec --dangerously-bypass-approvals-and-sandbox --json <prompt>`, and with a
(non-empty) resume key it is exactly
`exec --dangerously-bypass-approvals-and-sandbox resume <key> --json <prompt>`,
the prompt always being a single verbatim argv element. -/
theorem codex_buildArgs_spec :
    (∀ prompt, codexBuildArgs prompt none =
      ["exec", "--dangerously-bypass-approvals-and-sandbox", "--json", prompt]) ∧
    (∀ prompt k, k ≠ "" → codexBuildArgs prompt (some k) =
      ["exec", "--dangerously-bypass-approvals-and-sandbox", "resume", k,
        "--json", prompt]) := by
  constructor
  · intro prompt; rfl
  · intro prompt k hk
    simp [codexBuildArgs, jsTruthyStr, hk]

/-- Witness for C9: the resume form at a concrete prompt and key. -/
theorem codex_buildArgs_spec_witness :
    codexBuildArgs "fix tests" (some "codex-thread-1") =
      ["exec", "--dangerously-bypass-approvals-and-sandbox", "resume",
        "codex-thread-1", "--json", "fix tests"] :=
  codex_buildArgs_spec.2 "fix tests" "codex-thread-1" (by decide)

/-! ### Helper lemmas on the scheduler invariant -/

theorem filter_running_setKey_preserve (k : String) (f : QueueSession → QueueSession)
    (hf : ∀ q, (f q).running.isSome = q.running.isSome) :
    ∀ l : List (String × QueueSession),
      ((setKey k f l).filter fun p => p.2.running.isSome).length =
        (l.filter fun p => p.2.running.isSome).length := by
  intro l
  induction l with
  | nil => rfl
  | cons p rest ih =>
    by_cases hp : p.1 = k
    · simp only [setKey, hp, if_true, List.filter]
      rw [hf p.2]
      cases p.2.running.isSome <;> simp
    · simp only [setKey, hp, if_false, List.filter]
      cases p.2.running.isSome <;> simp [ih]

theorem filter_running_setKey_on (k : String) (f : QueueSession → QueueSession) :
    ∀ (l : List (String × QueueSession)) (q : QueueSession),
      lookupKey k l = some q → q.running.isSome = false →
      (f q).running.isSome = true →
      ((setKey k f l).filter fun p => p.2.running.isSome).length =
        (l.filter fun p => p.2.running.isSome).length + 1 := by
  intro l
  induction l with
  | nil => intro q hq; cases hq
  | cons p rest ih =>
    intro q hq hoff hon
    by_cases hp : p.1 = k
    · rw [lookupKey, if_pos hp] at hq
      cases hq
      simp only [setKey, hp, if_true, List.filter, hon, hoff]
      simp
    · rw [lookupKey, if_neg hp] at hq
      simp only [setKey, hp, if_false, List.filter]
      cases p.2.running.isSome <;> simp [ih q hq hoff hon]

theorem filter_running_setKey_off (k : String) (f : QueueSession → QueueSession) :
    ∀ (l : List (String × QueueSession)) (q : QueueSession),
      lookupKey k l = some q → q.running.isSome = true →
      (f q).running.isSome = false →
      ((setKey k f l).filter fun p => p.2.running.isSome).length + 1 =
        (l.filter fun p => p.2.running.isSome).length := by
  intro l
  induction l with
  | nil => intro q hq; cases hq
  | cons p rest ih =>
    intro q hq hon hoff
    by_cases hp : p.1 = k
    · rw [lookupKey, if_pos hp] at hq
      cases hq
      simp only [setKey, hp, if_true, List.filter, hon, hoff]
      simp
    · rw [lookupKey, if_neg hp] at hq
      simp only [setKey, hp, if_false, List.filter]
      cases p.2.running.isSome <;> simp [ih q hq hon hoff]

theorem sched_invariant (max : Int) :
    ∀ s, SchedReachable max s →
      s.globalMaxRunning = max ∧ s.countRunning = s.runningTotal ∧
        s.runningTotal ≤ max := by
  intro s h
  induction h with
  | init hmax =>
    refine ⟨rfl, by simp [Scheduler.init, Scheduler.countRunning], ?_⟩
    simp only [Scheduler.init]
    omega
  | @step s s' op tr _ happ ih =>
    obtain ⟨hmax, hcount, hle⟩ := ih
    cases op with
    | ensure tid =>
      have hs' : s.ensureSession tid = s' := by
        simpa [Scheduler.applyOp] using congrArg (fun o => o.map Prod.fst) happ
      subst hs'
      unfold Scheduler.ensureSession
      cases hlk : lookupKey tid s.sessions with
      | some q => exact ⟨hmax, hcount, hle⟩
      | none =>
        refine ⟨hmax, ?_, hle⟩
        simpa [Scheduler.countRunning, List.filter_append] using hcount
    | enq tid jid =>
      cases hen : s.enqueue tid jid with
      | none => simp [Scheduler.applyOp, hen] at happ
      | some s1 =>
        have hs' : s1 = s' := by
          simpa [Scheduler.applyOp, hen] using congrArg (fun o => o.map Prod.fst) happ
        subst hs'
        unfold Scheduler.enqueue at hen
        cases hlk : lookupKey tid s.sessions with
        | none => rw [hlk] at hen; cases hen
        | some sess =>
          rw [hlk] at hen
          cases hen
          refine ⟨hmax, ?_, hle⟩
          have hpres := filter_running_setKey_preserve tid
            (fun q => { q with queue := q.queue ++ [jid] }) (fun q => rfl) s.sessions
          simp only [Scheduler.countRunning] at hcount ⊢
          rw [hpres]
          exact hcount
    | start tid =>
      cases hlk : lookupKey tid s.sessions with
      | none => simp [Scheduler.applyOp, Scheduler.startNext, hlk] at happ
      | some sess =>
        by_cases hrun : sess.running.isSome
        · have hs' : s = s' := by
            simpa [Scheduler.applyOp, Scheduler.startNext, hlk, hrun] using
              congrArg (fun o => o.map Prod.fst) happ
          subst hs'
          exact ⟨hmax, hcount, hle⟩
        · by_cases hguard : s.globalMaxRunning ≤ s.runningTotal
          · have hs' : s = s' := by
              simpa [Scheduler.applyOp, Scheduler.startNext, hlk, hrun, hguard] using
                congrArg (fun o => o.map Prod.fst) happ
            subst hs'
            exact ⟨hmax, hcount, hle⟩
          · cases hq : sess.queue with
            | nil =>
              have hs' : s = s' := by
                simpa [Scheduler.applyOp, Scheduler.startNext, hlk, hrun, hguard, hq]
                  using congrArg (fun o => o.map Prod.fst) happ
              subst hs'
              exact ⟨hmax, hcount, hle⟩
            | cons jid rest =>
              have hs' :
                  ({ s with
                    sessions := setKey tid
                      (fun q => { q with queue := rest, running := some jid }) s.sessions
                    runningTotal := s.runningTotal + 1 } : Scheduler) = s' := by
                simpa [Scheduler.applyOp, Scheduler.startNext, hlk, hrun, hguard, hq]
                  using congrArg (fun o => o.map Prod.fst) happ
              subst hs'
              refine ⟨hmax, ?_, ?_⟩
              · have hcnt := filter_running_setKey_on tid
                  (fun q => { q with queue := rest, running := some jid })
                  s.sessions sess hlk (by simpa using hrun) (by simp)
                simp only [Scheduler.countRunning] at hcount ⊢
                rw [hcnt]
                push_cast at hcount ⊢
                omega
              · rw [hmax] at hguard
                show s.runningTotal + 1 ≤ max
                omega
    | finish tid jid =>
      cases hlk : lookupKey tid s.sessions with
      | none => simp [Scheduler.applyOp, Scheduler.finishRunning, hlk] at happ
      | some sess =>
        by_cases hr : sess.running = some jid
        · have hs' :
              ({ s with
                sessions := setKey tid (fun q => { q with running := none }) s.sessions
                runningTotal := s.runningTotal - 1 } : Scheduler) = s' := by
            simpa [Scheduler.applyOp, Scheduler.finishRunning, hlk, hr] using
              congrArg (fun o => o.map Prod.fst) happ
          subst hs'
          refine ⟨hmax, ?_, ?_⟩
          · have hcnt := filter_running_setKey_off tid
              (fun q => { q with running := none }) s.sessions sess hlk
              (by simp [hr]) (by simp)
            simp only [Scheduler.countRunning] at hcount ⊢
            omega
          · show s.runningTotal - 1 ≤ max
            omega
        · simp [Scheduler.applyOp, Scheduler.finishRunning, hlk, hr] at happ
    | regDedupe tid mid jid =>
      have hs' : (s.registerDedupe tid mid jid).2 = s' := by
        simpa [Scheduler.applyOp] using congrArg (fun o => o.map Prod.fst) happ
      subst hs'
      cases hlk : lookupKey (tid ++ ":" ++ mid) s.dedupe with
      | some v =>
        simp only [Scheduler.registerDedupe, hlk]
        exact ⟨hmax, hcount, hle⟩
      | none =>
        simp only [Scheduler.registerDedupe, hlk]
        exact ⟨hmax, hcount, hle⟩

theorem kickLoop_length_le (sessions : List SessionEntity) :
    ∀ (fuel : Nat) (rt : List String),
      (kickLoop fuel rt sessions).length ≤ GLOBAL_MAX_RUNNING - rt.length := by
  intro fuel
  induction fuel with
  | zero => intro rt; simp [kickLoop]
  | succ n ih =>
    intro rt
    by_cases hlt : rt.length < GLOBAL_MAX_RUNNING
    · cases hp : pickNextRunnable rt sessions with
      | none => simp [kickLoop, hlt, hp]
      | some pair =>
        obtain ⟨tid, jid⟩ := pair
        have hrec := ih (rt ++ [tid])
        simp only [kickLoop, hlt, if_true, hp, List.length_cons,
          List.length_append, List.length_singleton] at hrec ⊢
        simp only [GLOBAL_MAX_RUNNING] at hrec hlt ⊢
        omega
    · simp [kickLoop, hlt]

/-! ### Claim C2: global concurrency cap -/

/-- C2: in every reachable scheduler state the number of sessions holding a
running job is at most `GLOBAL_MAX_RUNNING = 2`, and once two jobs are
running `startNext` refuses to admit another (it returns null and leaves the
state unchanged); likewise the coordinator's kick loop never admits a job
while two threads are in flight, and never pushes the in-flight count past
two. -/
theorem global_running_cap :
    (∀ s : Scheduler, SchedReachable 2 s →
      s.countRunning ≤ 2 ∧
      (2 ≤ s.countRunning → ∀ tid r, s.startNext tid = some r → r = (none, s))) ∧
    (∀ (rt : List String) (sessions : List SessionEntity),
      rt.length = GLOBAL_MAX_RUNNING → kick rt sessions = []) ∧
    (∀ (rt : List String) (sessions : List SessionEntity),
      rt.length ≤ GLOBAL_MAX_RUNNING →
      rt.length + (kick rt sessions).length ≤ GLOBAL_MAX_RUNNING) := by
  refine ⟨?_, ?_, ?_⟩
  · intro s hreach
    obtain ⟨hmax, hcount, hle⟩ := sched_invariant 2 s hreach
    refine ⟨by rw [hcount]; exact hle, ?_⟩
    intro hge tid r hstart
    rw [hcount] at hge
    cases hlk : lookupKey tid s.sessions with
    | none => simp [Scheduler.startNext, hlk] at hstart
    | some sess =>
      by_cases hrun : sess.running.isSome
      · simp only [Scheduler.startNext, hlk, hrun, if_true] at hstart
        exact (Option.some_inj.mp hstart).symm
      · have hguard : s.globalMaxRunning ≤ s.runningTotal := by rw [hmax]; exact hge
        simp only [Scheduler.startNext, hlk, hrun, Bool.false_eq_true, if_false,
          hguard, if_true] at hstart
        exact (Option.some_inj.mp hstart).symm
  · intro rt sessions hlen
    simp [kick, GLOBAL_MAX_RUNNING, kickLoop, hlen]
  · intro rt sessions hle
    have hb := kickLoop_length_le sessions GLOBAL_MAX_RUNNING rt
    simp only [kick] at *
    simp only [GLOBAL_MAX_RUNNING] at *
    omega

/-- Witness for C2: a reachable scheduler state with both slots running;
the count is within the cap, thread tc is refused although its queue is
nonempty, and the kick loop admits nothing once two threads are in flight. -/
theorem global_running_cap_witness :
    demoCapSched.countRunning ≤ 2 ∧
      demoCapSched.startNext "tc" = some (none, demoCapSched) ∧
      kick ["ta", "tb"] [] = [] := by
  have h0 : SchedReachable 2 (Scheduler.init 2) := .init (by decide)
  have h1 : SchedReachable 2 ⟨2, [("ta", ⟨[], none⟩)], [], 0⟩ :=
    .step h0 (by decide :
      (Scheduler.init 2).applyOp (.ensure "ta") =
        some (⟨2, [("ta", ⟨[], none⟩)], [], 0⟩, []))
  have h2 : SchedReachable 2 ⟨2, [("ta", ⟨[], none⟩), ("tb", ⟨[], none⟩)], [], 0⟩ :=
    .step h1 (by decide :
      (⟨2, [("ta", ⟨[], none⟩)], [], 0⟩ : Scheduler).applyOp (.ensure "tb") =
        some (⟨2, [("ta", ⟨[], none⟩), ("tb", ⟨[], none⟩)], [], 0⟩, []))
  have h3 : SchedReachable 2
      ⟨2, [("ta", ⟨[], none⟩), ("tb", ⟨[], none⟩), ("tc", ⟨[], none⟩)], [], 0⟩ :=
    .step h2 (by decide :
      (⟨2, [("ta", ⟨[], none⟩), ("tb", ⟨[], none⟩)], [], 0⟩ : Scheduler).applyOp
          (.ensure "tc") =
        some (⟨2, [("ta", ⟨[], none⟩), ("tb", ⟨[], none⟩), ("tc", ⟨[], none⟩)], [], 0⟩,
          []))
  have h4 : SchedReachable 2
      ⟨2, [("ta", ⟨["j1"], none⟩), ("tb", ⟨[], none⟩), ("tc", ⟨[], none⟩)], [], 0⟩ :=
    .step h3 (by decide :
      (⟨2, [("ta", ⟨[], none⟩), ("tb", ⟨[], none⟩), ("tc", ⟨[], none⟩)], [], 0⟩ :
          Scheduler).applyOp (.enq "ta" "j1") =
        some
          (⟨2, [("ta", ⟨["j1"], none⟩), ("tb", ⟨[], none⟩), ("tc", ⟨[], none⟩)], [], 0⟩,
            [.enq "ta" "j1"]))
  have h5 : SchedReachable 2
      ⟨2, [("ta", ⟨["j1"], none⟩), ("tb", ⟨["j2"], none⟩), ("tc", ⟨[], none⟩)], [], 0⟩ :=
    .step h4 (by decide :
      (⟨2, [("ta", ⟨["j1"], none⟩), ("tb", ⟨[], none⟩), ("tc", ⟨[], none⟩)], [], 0⟩ :
          Scheduler).applyOp (.enq "tb" "j2") =
        some
          (⟨2, [("ta", ⟨["j1"], none⟩), ("tb", ⟨["j2"], none⟩), ("tc", ⟨[], none⟩)], [],
              0⟩,
            [.enq "tb" "j2"]))
  have h6 : SchedReachable 2
      ⟨2, [("ta", ⟨["j1"], none⟩), ("tb", ⟨["j2"], none⟩), ("tc", ⟨["j3"], none⟩)], [],
        0⟩ :=
    .step h5 (by decide :
      (⟨2, [("ta", ⟨["j1"], none⟩), ("tb", ⟨["j2"], none⟩), ("tc", ⟨[], none⟩)], [],
          0⟩ : Scheduler).applyOp (.enq "tc" "j3") =
        some
          (⟨2, [("ta", ⟨["j1"], none⟩), ("tb", ⟨["j2"], none⟩), ("tc", ⟨["j3"], none⟩)],
              [], 0⟩,
            [.enq "tc" "j3"]))
  have h7 : SchedReachable 2
      ⟨2, [("ta", ⟨[], some "j1"⟩), ("tb", ⟨["j2"], none⟩), ("tc", ⟨["j3"], none⟩)], [],
        1⟩ :=
    .step h6 (by decide :
      (⟨2, [("ta", ⟨["j1"], none⟩), ("tb", ⟨["j2"], none⟩), ("tc", ⟨["j3"], none⟩)], [],
          0⟩ : Scheduler).applyOp (.start "ta") =
        some
          (⟨2, [("ta", ⟨[], some "j1"⟩), ("tb", ⟨["j2"], none⟩), ("tc", ⟨["j3"], none⟩)],
              [], 1⟩,
            [.started "ta" "j1"]))
  have h8 : SchedReachable 2 demoCapSched :=
    .step h7 (by decide :
      (⟨2, [("ta", ⟨[], some "j1"⟩), ("tb", ⟨["j2"], none⟩), ("tc", ⟨["j3"], none⟩)], [],
          1⟩ : Scheduler).applyOp (.start "tb") =
        some (demoCapSched, [.started "tb" "j2"]))
  refine ⟨(global_running_cap.1 demoCapSched h8).1, ?_, ?_⟩
  · have hstart : demoCapSched.startNext "tc" = some (none, demoCapSched) := by decide
    have hrefuse := (global_running_cap.1 demoCapSched h8).2 (by decide) "tc"
      (none, demoCapSched) hstart
    exact hstart
  · exact global_running_cap.2.1 ["ta", "tb"] [] (by decide)

/-! ### Helper lemmas on scheduler traces -/

theorem lookupKey_append_ne (k k' : String) (v : β) (l : List (String × β))
    (h : ¬ k = k') : lookupKey k (l ++ [(k', v)]) = lookupKey k l := by
  induction l with
  | nil =>
    have h' : ¬ k' = k := fun hh => h hh.symm
    simp [lookupKey, h']
  | cons p rest ih =>
    by_cases hp : p.1 = k <;> simp [lookupKey, hp, ih]

theorem enqueuedOf_append (T : String) (a b : List TraceEv) :
    enqueuedOf T (a ++ b) = enqueuedOf T a ++ enqueuedOf T b := by
  simp [enqueuedOf, List.filterMap_append]

theorem startedOf_append (T : String) (a b : List TraceEv) :
    startedOf T (a ++ b) = startedOf T a ++ startedOf T b := by
  simp [startedOf, List.filterMap_append]

theorem finishedOf_append (T : String) (a b : List TraceEv) :
    finishedOf T (a ++ b) = finishedOf T a ++ finishedOf T b := by
  simp [finishedOf, List.filterMap_append]

theorem ensureSession_queueOf (s : Scheduler) (tid T : String) :
    (s.ensureSession tid).queueOf T = s.queueOf T := by
  unfold Scheduler.ensureSession
  cases hlk : lookupKey tid s.sessions with
  | some q => rfl
  | none =>
    by_cases hT : T = tid
    · subst hT
      simp [Scheduler.queueOf, lookupKey_append_last, hlk]
    · simp [Scheduler.queueOf, lookupKey_append_ne T tid _ s.sessions hT]

theorem ensureSession_runningOf (s : Scheduler) (tid T : String) :
    (s.ensureSession tid).runningOf T = s.runningOf T := by
  unfold Scheduler.ensureSession
  cases hlk : lookupKey tid s.sessions with
  | some q => rfl
  | none =>
    by_cases hT : T = tid
    · subst hT
      simp [Scheduler.runningOf, lookupKey_append_last, hlk]
    · simp [Scheduler.runningOf, lookupKey_append_ne T tid _ s.sessions hT]

theorem applyOp_thread_order (T : String) (s s' : Scheduler) (op : SchedOp)
    (tr : List TraceEv) (happ : s.applyOp op = some (s', tr)) :
    s.queueOf T ++ enqueuedOf T tr = startedOf T tr ++ s'.queueOf T ∧
    s.runningOf T ++ startedOf T tr = finishedOf T tr ++ s'.runningOf T := by
  cases op with
  | ensure tid =>
    have h1 : s.ensureSession tid = s' := by
      simpa [Scheduler.applyOp] using congrArg (fun o => o.map Prod.fst) happ
    have h2 : tr = [] := by
      simpa [Scheduler.applyOp] using (congrArg (fun o => o.map Prod.snd) happ).symm
    subst h1; subst h2
    simp [enqueuedOf, startedOf, finishedOf, ensureSession_queueOf,
      ensureSession_runningOf]
  | enq tid jid =>
    cases hen : s.enqueue tid jid with
    | none => simp [Scheduler.applyOp, hen] at happ
    | some s1 =>
      have h1 : s1 = s' := by
        simpa [Scheduler.applyOp, hen] using congrArg (fun o => o.map Prod.fst) happ
      have h2 : tr = [TraceEv.enq tid jid] := by
        simpa [Scheduler.applyOp, hen] using
          (congrArg (fun o => o.map Prod.snd) happ).symm
      subst h1; subst h2
      unfold Scheduler.enqueue at hen
      cases hlk : lookupKey tid s.sessions with
      | none => rw [hlk] at hen; cases hen
      | some sess =>
        rw [hlk] at hen
        cases hen
        by_cases hT : T = tid
        · subst hT
          constructor
          · simp [enqueuedOf, startedOf, Scheduler.queueOf, lookupKey_setKey, hlk]
          · simp [startedOf, finishedOf, Scheduler.runningOf, lookupKey_setKey, hlk]
        · have hT' : ¬ tid = T := fun hh => hT hh.symm
          constructor
          · simp [enqueuedOf, startedOf, Scheduler.queueOf, lookupKey_setKey, hT, hT']
          · simp [startedOf, finishedOf, Scheduler.runningOf, lookupKey_setKey, hT, hT']
  | start tid =>
    cases hlk : lookupKey tid s.sessions with
    | none => simp [Scheduler.applyOp, Scheduler.startNext, hlk] at happ
    | some sess =>
      by_cases hrun : sess.running.isSome
      · have h1 : s = s' := by
          simpa [Scheduler.applyOp, Scheduler.startNext, hlk, hrun] using
            congrArg (fun o => o.map Prod.fst) happ
        have h2 : tr = [] := by
          simpa [Scheduler.applyOp, Scheduler.startNext, hlk, hrun] using
            (congrArg (fun o => o.map Prod.snd) happ).symm
        subst h1; subst h2
        simp [enqueuedOf, startedOf, finishedOf]
      · by_cases hguard : s.globalMaxRunning ≤ s.runningTotal
        · have h1 : s = s' := by
            simpa [Scheduler.applyOp, Scheduler.startNext, hlk, hrun, hguard] using
              congrArg (fun o => o.map Prod.fst) happ
          have h2 : tr = [] := by
            simpa [Scheduler.applyOp, Scheduler.startNext, hlk, hrun, hguard] using
              (congrArg (fun o => o.map Prod.snd) happ).symm
          subst h1; subst h2
          simp [enqueuedOf, startedOf, finishedOf]
        · cases hq : sess.queue with
          | nil =>
            have h1 : s = s' := by
              simpa [Scheduler.applyOp, Scheduler.startNext, hlk, hrun, hguard, hq]
                using congrArg (fun o => o.map Prod.fst) happ
            have h2 : tr = [] := by
              simpa [Scheduler.applyOp, Scheduler.startNext, hlk, hrun, hguard, hq]
                using (congrArg (fun o => o.map Prod.snd) happ).symm
            subst h1; subst h2
            simp [enqueuedOf, startedOf, finishedOf]
          | cons jid rest =>
            have h1 :
                ({ s with
                  sessions := setKey tid
                    (fun q => { q with queue := rest, running := some jid }) s.sessions
                  runningTotal := s.runningTotal + 1 } : Scheduler) = s' := by
              simpa [Scheduler.applyOp, Scheduler.startNext, hlk, hrun, hguard, hq]
                using congrArg (fun o => o.map Prod.fst) happ
            have h2 : tr = [TraceEv.started tid jid] := by
              simpa [Scheduler.applyOp, Scheduler.startNext, hlk, hrun, hguard, hq]
                using (congrArg (fun o => o.map Prod.snd) happ).symm
            subst h1; subst h2
            have hnone : sess.running = none := by
              cases hcase : sess.running with
              | none => rfl
              | some v => rw [hcase] at hrun; simp at hrun
            by_cases hT : T = tid
            · subst hT
              constructor
              · simp [enqueuedOf, startedOf, Scheduler.queueOf, lookupKey_setKey,
                  hlk, hq]
              · simp [startedOf, finishedOf, Scheduler.runningOf, lookupKey_setKey,
                  hlk, hnone]
            · have hT' : ¬ tid = T := fun hh => hT hh.symm
              constructor
              · simp [enqueuedOf, startedOf, Scheduler.queueOf, lookupKey_setKey,
                  hT, hT']
              · simp [startedOf, finishedOf, Scheduler.runningOf, lookupKey_setKey,
                  hT, hT']
  | finish tid jid =>
    cases hlk : lookupKey tid s.sessions with
    | none => simp [Scheduler.applyOp, Scheduler.finishRunning, hlk] at happ
    | some sess =>
      by_cases hr : sess.running = some jid
      · have h1 :
            ({ s with
              sessions := setKey tid (fun q => { q with running := none }) s.sessions
              runningTotal := s.runningTotal - 1 } : Scheduler) = s' := by
          simpa [Scheduler.applyOp, Scheduler.finishRunning, hlk, hr] using
            congrArg (fun o => o.map Prod.fst) happ
        have h2 : tr = [TraceEv.finished tid jid] := by
          simpa [Scheduler.applyOp, Scheduler.finishRunning, hlk, hr] using
            (congrArg (fun o => o.map Prod.snd) happ).symm
        subst h1; subst h2
        by_cases hT : T = tid
        · subst hT
          constructor
          · simp [enqueuedOf, startedOf, Scheduler.queueOf, lookupKey_setKey, hlk]
          · simp [startedOf, finishedOf, Scheduler.runningOf, lookupKey_setKey,
              hlk, hr]
        · have hT' : ¬ tid = T := fun hh => hT hh.symm
          constructor
          · simp [enqueuedOf, startedOf, Scheduler.queueOf, lookupKey_setKey, hT, hT']
          · simp [startedOf, finishedOf, Scheduler.runningOf, lookupKey_setKey,
              hT, hT']
      · simp [Scheduler.applyOp, Scheduler.finishRunning, hlk, hr] at happ
  | regDedupe tid mid jid =>
    have h1 : (s.registerDedupe tid mid jid).2 = s' := by
      simpa [Scheduler.applyOp] using congrArg (fun o => o.map Prod.fst) happ
    have h2 : tr = [] := by
      simpa [Scheduler.applyOp] using (congrArg (fun o => o.map Prod.snd) happ).symm
    subst h1; subst h2
    cases hlk : lookupKey (tid ++ ":" ++ mid) s.dedupe with
    | some v =>
      simp [enqueuedOf, startedOf, finishedOf, Scheduler.registerDedupe, hlk,
        Scheduler.queueOf, Scheduler.runningOf]
    | none =>
      simp [enqueuedOf, startedOf, finishedOf, Scheduler.registerDedupe, hlk,
        Scheduler.queueOf, Scheduler.runningOf]

theorem runOps_thread_order (T : String) :
    ∀ (ops : List SchedOp) (s0 s : Scheduler) (tr : List TraceEv),
      Scheduler.runOps s0 ops = some (s, tr) →
      s0.queueOf T ++ enqueuedOf T tr = startedOf T tr ++ s.queueOf T ∧
      s0.runningOf T ++ startedOf T tr = finishedOf T tr ++ s.runningOf T := by
  intro ops
  induction ops with
  | nil =>
    intro s0 s tr h
    simp only [Scheduler.runOps] at h
    cases h
    simp [enqueuedOf, startedOf, finishedOf]
  | cons op rest ih =>
    intro s0 s tr h
    simp only [Scheduler.runOps] at h
    cases happ : s0.applyOp op with
    | none => rw [happ] at h; cases h
    | some pair =>
      obtain ⟨s1, tr1⟩ := pair
      rw [happ] at h
      dsimp only at h
      cases hrest : Scheduler.runOps s1 rest with
      | none => rw [hrest] at h; cases h
      | some pair2 =>
        obtain ⟨s2, tr2⟩ := pair2
        rw [hrest] at h
        dsimp only at h
        cases h
        obtain ⟨hq1, hr1⟩ := applyOp_thread_order T s0 s1 op tr1 happ
        obtain ⟨hq2, hr2⟩ := ih s1 s tr2 hrest
        constructor
        · rw [enqueuedOf_append, startedOf_append, ← List.append_assoc, hq1,
            List.append_assoc, hq2, ← List.append_assoc]
        · rw [startedOf_append, finishedOf_append, ← List.append_assoc, hr1,
            List.append_assoc, hr2, ← List.append_assoc]

/-! ### Claim C3: per-thread single-consumer FIFO -/

/-- C3: over any valid scheduler history, the jobs of one thread are started
by popping the queue head in enqueue order (started jobs followed by the
pending queue reproduce the enqueue sequence), completions follow starts in
the same order (finished jobs followed by the running slot reproduce the
start sequence), hence completion order is a prefix of enqueue order; and
`startNext` returns null while the thread already has a running job. -/
theorem per_thread_fifo (T : String) (max : Int) (ops : List SchedOp)
    (s : Scheduler) (tr : List TraceEv)
    (hrun : Scheduler.runOps (Scheduler.init max) ops = some (s, tr)) :
    enqueuedOf T tr = startedOf T tr ++ s.queueOf T ∧
    startedOf T tr = finishedOf T tr ++ s.runningOf T ∧
    finishedOf T tr ++ (s.runningOf T ++ s.queueOf T) = enqueuedOf T tr ∧
    (∀ sess j, lookupKey T s.sessions = some sess → sess.running = some j →
      s.startNext T = some (none, s)) := by
  obtain ⟨hq, hr⟩ := runOps_thread_order T ops (Scheduler.init max) s tr hrun
  have hq0 : (Scheduler.init max).queueOf T = [] := rfl
  have hr0 : (Scheduler.init max).runningOf T = [] := rfl
  rw [hq0] at hq
  rw [hr0] at hr
  simp only [List.nil_append] at hq hr
  refine ⟨hq, hr, ?_, ?_⟩
  · rw [← List.append_assoc, ← hr, ← hq]
  · intro sess j hlk hrj
    have hsome : sess.running.isSome = true := by rw [hrj]; rfl
    simp [Scheduler.startNext, hlk, hsome]

/-- Witness for C3 on a concrete single-thread history (enqueue j1 and j2,
start j1, finish j1, start j2): starts follow enqueue order, completions
follow start order, and the busy thread is refused another start. -/
theorem per_thread_fifo_witness :
    enqueuedOf "ta" demoFifoTrace =
        startedOf "ta" demoFifoTrace ++ demoFifoSched.queueOf "ta" ∧
      startedOf "ta" demoFifoTrace =
        finishedOf "ta" demoFifoTrace ++ demoFifoSched.runningOf "ta" ∧
      demoFifoSched.startNext "ta" = some (none, demoFifoSched) := by
  have h := per_thread_fifo "ta" 2 demoFifoOps demoFifoSched demoFifoTrace (by decide)
  exact ⟨h.1, h.2.1, h.2.2.2 ⟨[], some "j2"⟩ "j2" (by decide) (by decide)⟩

/-! ### Helper lemmas on crash recovery -/

theorem lookupKey_mem (k : String) (v : β) :
    ∀ l : List (String × β), lookupKey k l = some v → (k, v) ∈ l := by
  intro l
  induction l with
  | nil => intro h; cases h
  | cons p rest ih =>
    intro h
    rw [lookupKey] at h
    by_cases hp : p.1 = k
    · rw [if_pos hp] at h
      cases h
      subst hp
      exact List.mem_cons_self _ _
    · rw [if_neg hp] at h
      exact List.mem_cons_of_mem p (ih h)

theorem mem_filter_keys_iff (pred : String × β → Bool) (k : String) :
    ∀ l : List (String × β), (l.map Prod.fst).Nodup →
      (k ∈ (l.filter pred).map Prod.fst ↔
        ∃ v, lookupKey k l = some v ∧ pred (k, v) = true) := by
  intro l
  induction l with
  | nil => intro _; simp [lookupKey]
  | cons p rest ih =>
    intro hnd
    rw [List.map_cons, List.nodup_cons] at hnd
    obtain ⟨hp1, hp2⟩ := hnd
    have hsub : ∀ a, a ∈ (rest.filter pred).map Prod.fst → a ∈ rest.map Prod.fst := by
      intro a ha
      obtain ⟨q, hq, hq2⟩ := List.mem_map.mp ha
      exact List.mem_map.mpr ⟨q, List.mem_of_mem_filter hq, hq2⟩
    by_cases hk : p.1 = k
    · subst hk
      have hnotin : ¬ p.1 ∈ (rest.filter pred).map Prod.fst := fun hm => hp1 (hsub _ hm)
      cases hpred : pred p with
      | true =>
        rw [List.filter_cons_of_pos hpred, List.map_cons]
        constructor
        · intro _
          refine ⟨p.2, ?_, ?_⟩
          · rw [lookupKey, if_pos rfl]
          · exact hpred
        · intro _
          exact List.mem_cons_self _ _
      | false =>
        rw [List.filter_cons_of_neg (by simp [hpred])]
        constructor
        · intro hm
          exact absurd hm hnotin
        · rintro ⟨v, hv, hpv⟩
          rw [lookupKey, if_pos rfl] at hv
          cases hv
          have hcontra : pred p = true := hpv
          rw [hpred] at hcontra
          cases hcontra
    · have hiff := ih hp2
      cases hpred : pred p with
      | true =>
        rw [List.filter_cons_of_pos hpred, List.map_cons]
        rw [lookupKey, if_neg hk]
        constructor
        · intro h
          rcases List.mem_cons.mp h with h | h
          · exact absurd h.symm hk
          · exact hiff.mp h
        · intro h
          exact List.mem_cons_of_mem _ (hiff.mpr h)
      | false =>
        rw [List.filter_cons_of_neg (by simp [hpred])]
        rw [lookupKey, if_neg hk]
        exact hiff

theorem markJobs_events (ts : String) :
    ∀ (l : List (String × String)) (st : RuntimeState),
      (markJobsUnknown ts st l).2 =
        l.map fun p => EventBody.JobMarkedUnknownAfterCrash p.2 p.1 := by
  intro l
  induction l with
  | nil => intro st; rfl
  | cons p rest ih =>
    intro st
    obtain ⟨j, t⟩ := p
    simp [markJobsUnknown, ih]

theorem markJobs_jobs (ts : String) :
    ∀ (l : List (String × String)) (st : RuntimeState) (jid : String)
      (job : JobEntity),
      lookupKey jid st.jobs = some job →
      lookupKey jid (markJobsUnknown ts st l).1.jobs =
        some (if jid ∈ l.map Prod.fst then
          { job with state := .unknown_after_crash } else job) := by
  intro l
  induction l with
  | nil =>
    intro st jid job h
    simpa [markJobsUnknown] using h
  | cons p rest ih =>
    intro st jid job h
    obtain ⟨j, t⟩ := p
    have hjobs1 : (applyEvent st ts (.JobMarkedUnknownAfterCrash t j)).jobs =
        setKey j (fun jb => { jb with state := .unknown_after_crash }) st.jobs := rfl
    by_cases hj : jid = j
    · subst hj
      have h1 : lookupKey jid
          (applyEvent st ts (.JobMarkedUnknownAfterCrash t jid)).jobs =
          some { job with state := .unknown_after_crash } := by
        rw [hjobs1, lookupKey_setKey, if_pos rfl, h]
        rfl
      have h2 := ih (applyEvent st ts (.JobMarkedUnknownAfterCrash t jid)) jid
        { job with state := .unknown_after_crash } h1
      simp only [markJobsUnknown]
      rw [h2]
      by_cases hmem : jid ∈ rest.map Prod.fst <;> simp [hmem]
    · have h1 : lookupKey jid
          (applyEvent st ts (.JobMarkedUnknownAfterCrash t j)).jobs =
          some job := by
        rw [hjobs1, lookupKey_setKey, if_neg hj, h]
      have h2 := ih (applyEvent st ts (.JobMarkedUnknownAfterCrash t j)) jid job h1
      simp only [markJobsUnknown]
      rw [h2]
      have hmem : (jid ∈ ((j, t) :: rest).map Prod.fst) ↔ jid ∈ rest.map Prod.fst := by
        simp [hj]
      by_cases hm : jid ∈ rest.map Prod.fst <;> simp [hm, hmem, hj]

theorem markJobs_sessions_untouched (ts : String) :
    ∀ (l : List (String × String)) (st : RuntimeState) (k : String),
      ¬ k ∈ l.map Prod.snd →
      lookupKey k (markJobsUnknown ts st l).1.sessions = lookupKey k st.sessions := by
  intro l
  induction l with
  | nil => intro st k _; rfl
  | cons p rest ih =>
    intro st k hk
    obtain ⟨j, t⟩ := p
    have hkt : ¬ k = t := by
      intro h; exact hk (by simp [h])
    have hkrest : ¬ k ∈ rest.map Prod.snd := by
      intro h; exact hk (by simp [h])
    have hses1 : (applyEvent st ts (.JobMarkedUnknownAfterCrash t j)).sessions =
        setKey t (fun s => { s with running_job_id := none, last_job_id := some j })
          st.sessions := rfl
    simp only [markJobsUnknown]
    rw [ih _ k hkrest, hses1, lookupKey_setKey, if_neg hkt]

theorem markJobs_sessions_cleared (ts : String) :
    ∀ (l : List (String × String)) (st : RuntimeState) (k : String),
      k ∈ l.map Prod.snd →
      ∀ sess, lookupKey k (markJobsUnknown ts st l).1.sessions = some sess →
        sess.running_job_id = none := by
  intro l
  induction l with
  | nil => intro st k hk; cases hk
  | cons p rest ih =>
    intro st k hk sess hlook
    obtain ⟨j, t⟩ := p
    by_cases hmem : k ∈ rest.map Prod.snd
    · exact ih _ k hmem sess (by simpa [markJobsUnknown] using hlook)
    · have hkt : k = t := by
        rcases (by simpa using hk : k = t ∨ k ∈ rest.map Prod.snd) with h | h
        · exact h
        · exact absurd h hmem
      subst hkt
      rw [show (markJobsUnknown ts st ((j, k) :: rest)).1 =
          (markJobsUnknown ts (applyEvent st ts (.JobMarkedUnknownAfterCrash k j))
            rest).1 from rfl] at hlook
      rw [markJobs_sessions_untouched ts rest _ k hmem] at hlook
      have hses1 : (applyEvent st ts (.JobMarkedUnknownAfterCrash k j)).sessions =
          setKey k (fun s => { s with running_job_id := none, last_job_id := some j })
            st.sessions := rfl
      rw [hses1, lookupKey_setKey, if_pos rfl] at hlook
      cases hfind : lookupKey k st.sessions with
      | none => rw [hfind] at hlook; cases hlook
      | some s0 =>
        rw [hfind] at hlook
        cases hlook
        rfl

/-! ### Claim C6: crash recovery postcondition -/

/-- C6: after startup replay, recovery transitions every job in state
`running` to `unknown_after_crash` — never to `failed` or `success` — leaves
all other jobs unchanged, clears the owning session's `running_job_id`, and
writes exactly one synthetic `JobMarkedUnknownAfterCrash` event per running
job. -/
theorem crash_recovery_postcondition (ts : String) (st : RuntimeState)
    (hnd : (st.jobs.map Prod.fst).Nodup) :
    (∀ jid job, lookupKey jid st.jobs = some job → job.state = .running →
      lookupKey jid (recoverRunningJobsAfterCrash ts st).1.jobs =
        some { job with state := .unknown_after_crash }) ∧
    (∀ jid job, lookupKey jid st.jobs = some job → ¬ job.state = .running →
      lookupKey jid (recoverRunningJobsAfterCrash ts st).1.jobs = some job) ∧
    (∀ k jid job, lookupKey jid st.jobs = some job → job.state = .running →
      job.thread_id = k →
      ∀ sess,
        lookupKey k (recoverRunningJobsAfterCrash ts st).1.sessions = some sess →
        sess.running_job_id = none) ∧
    ((recoverRunningJobsAfterCrash ts st).2 =
      (runningJobPairs st).map fun p => EventBody.JobMarkedUnknownAfterCrash p.2 p.1) := by
  have hkeys : (runningJobPairs st).map Prod.fst =
      (st.jobs.filter fun p => p.2.state = .running).map Prod.fst := by
    simp [runningJobPairs]
  refine ⟨?_, ?_, ?_, ?_⟩
  · intro jid job hlook hrun
    have hmem : jid ∈ (runningJobPairs st).map Prod.fst := by
      rw [hkeys]
      exact (mem_filter_keys_iff _ jid st.jobs hnd).mpr ⟨job, hlook, by simp [hrun]⟩
    have := markJobs_jobs ts (runningJobPairs st) st jid job hlook
    rw [if_pos hmem] at this
    exact this
  · intro jid job hlook hrun
    have hmem : ¬ jid ∈ (runningJobPairs st).map Prod.fst := by
      rw [hkeys]
      intro hmem
      obtain ⟨v, hv, hpv⟩ := (mem_filter_keys_iff _ jid st.jobs hnd).mp hmem
      rw [hlook] at hv
      cases hv
      exact hrun (by simpa using hpv)
    have := markJobs_jobs ts (runningJobPairs st) st jid job hlook
    rw [if_neg hmem] at this
    exact this
  · intro k jid job hlook hrun hthread sess hsess
    have hpair : (jid, job) ∈ st.jobs := lookupKey_mem jid job st.jobs hlook
    have hfiltered : (jid, job) ∈ st.jobs.filter fun p => p.2.state = .running := by
      rw [List.mem_filter]
      exact ⟨hpair, by simp [hrun]⟩
    have hmem : k ∈ (runningJobPairs st).map Prod.snd := by
      have : ((jid, job).1, (jid, job).2.thread_id) ∈ runningJobPairs st :=
        List.mem_map_of_mem _ hfiltered
      rw [hthread] at this
      exact (List.mem_map_of_mem Prod.snd this : _)
    exact markJobs_sessions_cleared ts (runningJobPairs st) st k hmem sess hsess
  · exact markJobs_events ts (runningJobPairs st) st

/-- Witness for C6 on a state with one running and one finished job: the
running job becomes `unknown_after_crash`, the finished job is untouched,
the owning session's `running_job_id` is cleared, and exactly one synthetic
event is written. -/
theorem crash_recovery_postcondition_witness :
    lookupKey "j1" (recoverRunningJobsAfterCrash "t9" demoCrashState).1.jobs =
        some { demoRunningJob with state := .unknown_after_crash } ∧
      lookupKey "j2" (recoverRunningJobsAfterCrash "t9" demoCrashState).1.jobs =
        some demoDoneJob ∧
      lookupKey "ta" (recoverRunningJobsAfterCrash "t9" demoCrashState).1.sessions =
        some demoClearedSession ∧
      demoClearedSession.running_job_id = none ∧
      (recoverRunningJobsAfterCrash "t9" demoCrashState).2 =
        [.JobMarkedUnknownAfterCrash "ta" "j1"] := by
  have h := crash_recovery_postcondition "t9" demoCrashState (by decide)
  refine ⟨h.1 "j1" demoRunningJob (by decide) (by decide),
    h.2.1 "j2" demoDoneJob (by decide) (by decide), by decide, ?_, ?_⟩
  · exact h.2.2.1 "ta" "j1" demoRunningJob (by decide) (by decide) (by decide)
      demoClearedSession (by decide)
  · exact h.2.2.2.trans (by decide)

/-! ### Claim C7: consecutive-duplicate suppression in the post-run passes -/

/-- Counterexample to C7 as stated: on a gemini stdout stream in which the
same non-empty chunk `Hi` arrives twice in a row, the duplicated chunk
contributes twice to the assistant text — `parseGemini` pushes deltas
without the `appendUnique` suppression the other two adapters use. -/
theorem gemini_duplicate_chunk_counterexample :
    (parseGemini [demoDeltaLine, demoDeltaLine]).assistantText = "Hi\nHi" ∧
      ¬ (parseGemini [demoDeltaLine, demoDeltaLine]).assistantText = "Hi" := by
  constructor
  · rfl
  · decide

theorem appendUnique_chain (parts : List String) (text : String)
    (h : List.Chain' (· ≠ ·) parts) :
    List.Chain' (· ≠ ·) (appendUnique parts text) := by
  unfold appendUnique
  by_cases h0 : text.length = 0
  · rw [if_pos h0]; exact h
  · rw [if_neg h0]
    by_cases hl : parts.getLast? = some text
    · rw [if_pos hl]; exact h
    · rw [if_neg hl]
      rw [List.chain'_append]
      refine ⟨h, List.chain'_singleton text, ?_⟩
      intro x hx y hy
      rw [List.head?_cons, Option.mem_def] at hy
      cases hy
      intro hxy
      subst hxy
      exact hl (Option.mem_def.mp hx)

theorem claudeScanLoop_chain :
    ∀ (lines : List StreamLine) (acc : ClaudeScan),
      List.Chain' (· ≠ ·) acc.assistantParts →
      List.Chain' (· ≠ ·) (claudeScanLoop acc lines).assistantParts := by
  intro lines
  induction lines with
  | nil => intro acc h; exact h
  | cons line rest ih =>
    intro acc h
    cases line with
    | raw t => exact ih _ h
    | malformed t m => exact h
    | jsonLine t fields => exact ih _ (appendUnique_chain _ _ h)

theorem codexScanLoop_chain :
    ∀ (lines : List StreamLine) (acc : CodexScan),
      List.Chain' (· ≠ ·) acc.assistantParts →
      List.Chain' (· ≠ ·) (codexScanLoop acc lines).assistantParts := by
  intro lines
  induction lines with
  | nil => intro acc h; exact h
  | cons line rest ih =>
    intro acc h
    cases line with
    | raw t => exact ih _ h
    | malformed t m => exact h
    | jsonLine t fields => exact ih _ (appendUnique_chain _ _ h)

/-- C7 (amended): the claude and codex post-run passes accumulate assistant
text through `appendUnique`, which drops a chunk equal to the last appended
chunk, so their accumulated chunk lists never contain two equal adjacent
chunks; the gemini pass, however, appends assistant `delta` chunks
unconditionally, with no consecutive-duplicate suppression (see the
counterexample). -/
theorem adapter_duplicate_suppression :
    (∀ (parts : List String) (text : String), ¬ text.length = 0 →
      parts.getLast? = some text → appendUnique parts text = parts) ∧
    (∀ lines : List StreamLine,
      List.Chain' (· ≠ ·) (claudeScan lines).assistantParts) ∧
    (∀ lines : List StreamLine,
      List.Chain' (· ≠ ·) (codexScan lines).assistantParts) ∧
    (∀ (acc : GeminiAcc) (t : String) (fields : List (String × Json)) (d : String),
      fieldStr "type" fields = some "message" →
      fieldStr "role" fields = some "assistant" →
      fieldStr "delta" fields = some d →
      (parseGeminiLoop acc [.jsonLine t fields]).assistantText =
        strTrim (String.intercalate "\n" (acc.assistantParts ++ [d]))) := by
  refine ⟨?_, ?_, ?_, ?_⟩
  · intro parts text h0 hl
    unfold appendUnique
    rw [if_neg h0, if_pos hl]
  · intro lines
    exact claudeScanLoop_chain lines ⟨[], [], none, none⟩ List.chain'_nil
  · intro lines
    exact codexScanLoop_chain lines ⟨[], [], none, none⟩ List.chain'_nil
  · intro acc t fields d h1 h2 h3
    simp [parseGeminiLoop, h1, h2, h3]

/-- Witness for C7 (amended): a chunk equal to the last appended chunk is
dropped by `appendUnique`, while the gemini loop duplicates it. -/
theorem adapter_duplicate_suppression_witness :
    appendUnique ["Hi"] "Hi" = ["Hi"] ∧
      (parseGeminiLoop ⟨[], ["Hi"], none, false, none⟩ [demoDeltaLine]).assistantText =
        strTrim (String.intercalate "\n" (["Hi"] ++ ["Hi"])) :=
  ⟨adapter_duplicate_suppression.1 ["Hi"] "Hi" (by decide) (by decide),
    adapter_duplicate_suppression.2.2.2 ⟨[], ["Hi"], none, false, none⟩
      "gemini delta line"
      [("type", .str "message"), ("role", .str "assistant"), ("delta", .str "Hi")]
      "Hi" rfl rfl rfl⟩

/-! ### Claim C8: gemini transient retry -/

/-- Counterexample to C8 as stated: a gemini run whose first invocation
exits nonzero with a `quota` hint in the combined output is nevertheless not
retried, because a JSON-looking stdout line that fails to parse makes the
adapter return `E_ADAPTER_PARSE` before the exit-code check — only one
invocation happens although the claim demands exactly one retry. -/
theorem gemini_retry_counterexample :
    ¬ demoQuotaReply.exitCode = 0 ∧
      hasTransientErrorHint (demoQuotaReply.stdoutLines.map lineText ++
        demoQuotaReply.stderrLines ++
        (parseGemini demoQuotaReply.stdoutLines).diagnosticLogs) = true ∧
      (geminiRun [demoQuotaReply, demoOkReply]).2 = 1 ∧
      (geminiRun [demoQuotaReply, demoOkReply]).1.errorCode? =
        some .E_ADAPTER_PARSE := by
  refine ⟨by decide, by decide, by decide, by decide⟩

theorem geminiAttempt_one_none_iff (r : CommandRunResult) :
    geminiAttempt 1 r = none ↔
      (r.timedOut = false ∧ (parseGemini r.stdoutLines).parseError = none ∧
        ¬ r.exitCode = 0 ∧
        hasTransientErrorHint (r.stdoutLines.map lineText ++ r.stderrLines ++
          (parseGemini r.stdoutLines).diagnosticLogs) = true) := by
  unfold geminiAttempt
  cases ht : r.timedOut with
  | true => simp [ht]
  | false =>
    cases hp : (parseGemini r.stdoutLines).parseError with
    | some m => simp [ht, hp]
    | none =>
      by_cases he : r.exitCode = 0
      · cases hres : (parseGemini r.stdoutLines).hasResult with
        | false => simp [ht, hp, he, hres]
        | true =>
          by_cases hst : (parseGemini r.stdoutLines).resultStatus = some "success"
          · cases hsid : (parseGemini r.stdoutLines).sessionId with
            | none => simp [ht, hp, he, hres, hst, hsid]
            | some sid => simp [ht, hp, he, hres, hst, hsid]
          · simp [ht, hp, he, hres, hst]
      · cases hh : hasTransientErrorHint (r.stdoutLines.map lineText ++
            r.stderrLines ++ (parseGemini r.stdoutLines).diagnosticLogs) with
        | true =>
          rw [List.append_assoc] at hh
          simp [ht, hp, he, hh]
        | false =>
          rw [List.append_assoc] at hh
          simp [ht, hp, he, hh]

theorem geminiAttempt_two_ne_none (r : CommandRunResult) :
    ¬ geminiAttempt 2 r = none := by
  unfold geminiAttempt
  cases ht : r.timedOut with
  | true => simp [ht]
  | false =>
    cases hp : (parseGemini r.stdoutLines).parseError with
    | some m => simp [ht, hp]
    | none =>
      by_cases he : r.exitCode = 0
      · cases hres : (parseGemini r.stdoutLines).hasResult with
        | false => simp [ht, hp, he, hres]
        | true =>
          by_cases hst : (parseGemini r.stdoutLines).resultStatus = some "success"
          · cases hsid : (parseGemini r.stdoutLines).sessionId with
            | none => simp [ht, hp, he, hres, hst, hsid]
            | some sid => simp [ht, hp, he, hres, hst, hsid]
          · simp [ht, hp, he, hres, hst]
      · simp [ht, hp, he]

/-- C8 (amended): the gemini adapter re-invokes the same argv exactly once —
the invocation count is two — precisely when the first invocation did not
time out, all its JSON-looking stdout lines parsed, the process exited
nonzero and the combined stdout, stderr and diagnostics text contains a
transient hint; a timeout or a parse failure suppresses the retry even on a
nonzero exit with a hint; a second retry never happens (the count is always
at most two and the second attempt never continues); and the claude and
codex adapters always invoke exactly once. -/
theorem gemini_transient_retry :
    (∀ (r1 : CommandRunResult) (rest : List CommandRunResult),
      (geminiRun (r1 :: rest)).2 = 2 ↔ geminiAttempt 1 r1 = none) ∧
    (∀ r : CommandRunResult,
      geminiAttempt 1 r = none ↔
        (r.timedOut = false ∧ (parseGemini r.stdoutLines).parseError = none ∧
          ¬ r.exitCode = 0 ∧
          hasTransientErrorHint (r.stdoutLines.map lineText ++ r.stderrLines ++
            (parseGemini r.stdoutLines).diagnosticLogs) = true)) ∧
    (∀ replies : List CommandRunResult, (geminiRun replies).2 ≤ 2) ∧
    (∀ r : CommandRunResult, ¬ geminiAttempt 2 r = none) ∧
    (∀ replies : List CommandRunResult,
      (claudeRun replies).2 = 1 ∧ (codexRun replies).2 = 1) := by
  refine ⟨?_, geminiAttempt_one_none_iff, ?_, geminiAttempt_two_ne_none, ?_⟩
  · intro r1 rest
    cases ha : geminiAttempt 1 r1 with
    | some out => simp [geminiRun, ha]
    | none =>
      cases rest with
      | nil => simp [geminiRun, ha]
      | cons r2 rest2 =>
        cases hb : geminiAttempt 2 r2 with
        | some out => simp [geminiRun, ha, hb]
        | none => simp [geminiRun, ha, hb]
  · intro replies
    cases replies with
    | nil => simp [geminiRun]
    | cons r1 rest =>
      cases ha : geminiAttempt 1 r1 with
      | some out => simp [geminiRun, ha]
      | none =>
        cases rest with
        | nil => simp [geminiRun, ha]
        | cons r2 rest2 =>
          cases hb : geminiAttempt 2 r2 with
          | some out => simp [geminiRun, ha, hb]
          | none => simp [geminiRun, ha, hb]
  · intro replies
    cases replies with
    | nil => exact ⟨rfl, rfl⟩
    | cons r rest => exact ⟨rfl, rfl⟩

/-- Witness for C8 (amended): a clean nonzero-exit quota failure is retried
exactly once, and the claude and codex adapters invoke exactly once. -/
theorem gemini_transient_retry_witness :
    (geminiRun [demoQuotaCleanReply, demoOkReply]).2 = 2 ∧
      (claudeRun [demoOkReply]).2 = 1 ∧ (codexRun [demoOkReply]).2 = 1 :=
  ⟨(gemini_transient_retry.1 demoQuotaCleanReply [demoOkReply]).mpr
      ((gemini_transient_retry.2.1 demoQuotaCleanReply).mpr
        ⟨rfl, rfl, by decide, by decide⟩),
    (gemini_transient_retry.2.2.2.2 [demoOkReply]).1,
    (gemini_transient_retry.2.2.2.2 [demoOkReply]).2⟩

/-! ### Helper lemmas on the stable activity sort -/

theorem charsLe_trans :
    ∀ a b c : List Char, charsLe a b = true → charsLe b c = true →
      charsLe a c = true := by
  intro a
  induction a with
  | nil => intro b c _ _; rfl
  | cons x xs ih =>
    intro b c h1 h2
    cases b with
    | nil => cases h1
    | cons y ys =>
      cases c with
      | nil => cases h2
      | cons z zs =>
        by_cases hxy : x < y
        · by_cases hyz : y < z
          · have hxz : x < z := lt_trans hxy hyz
            simp [charsLe, hxz]
          · by_cases hzy : z < y
            · simp [charsLe, hyz, hzy] at h2
            · have hyz' : y = z := le_antisymm (not_lt.mp hzy) (not_lt.mp hyz)
              have hxz : x < z := hyz' ▸ hxy
              simp [charsLe, hxz]
        · by_cases hyx : y < x
          · simp [charsLe, hxy, hyx] at h1
          · have hxy' : x = y := le_antisymm (not_lt.mp hyx) (not_lt.mp hxy)
            have h1' : charsLe xs ys = true := by
              simpa [charsLe, hxy, hyx] using h1
            by_cases hyz : y < z
            · have hxz : x < z := hxy' ▸ hyz
              simp [charsLe, hxz]
            · by_cases hzy : z < y
              · simp [charsLe, hyz, hzy] at h2
              · have h2' : charsLe ys zs = true := by
                  simpa [charsLe, hyz, hzy] using h2
                have hyz' : y = z := le_antisymm (not_lt.mp hzy) (not_lt.mp hyz)
                have hxz1 : ¬ x < z := by rw [hxy', hyz']; exact lt_irrefl z
                have hxz2 : ¬ z < x := by rw [hxy', hyz']; exact lt_irrefl z
                simp [charsLe, hxz1, hxz2, ih ys zs h1' h2']

theorem strLe_trans (a b c : String) (h1 : strLe a b = true) (h2 : strLe b c = true) :
    strLe a c = true :=
  charsLe_trans a.data b.data c.data h1 h2

theorem insertByActivity_decomp (a : SessionEntity) :
    ∀ l : List SessionEntity, ∃ P S, l = P ++ S ∧
      insertByActivity a l = P ++ a :: S ∧
      ∀ x ∈ P, strLe a.last_activity_at x.last_activity_at = false := by
  intro l
  induction l with
  | nil => exact ⟨[], [], rfl, rfl, by simp⟩
  | cons b rest ih =>
    by_cases h : strLe a.last_activity_at b.last_activity_at = true
    · exact ⟨[], b :: rest, rfl, by simp [insertByActivity, h], by simp⟩
    · obtain ⟨P, S, hls, hins, hP⟩ := ih
      refine ⟨b :: P, S, ?_, ?_, ?_⟩
      · rw [List.cons_append, ← hls]
      · rw [insertByActivity, if_neg h, hins, List.cons_append]
      · intro x hx
        rcases List.mem_cons.mp hx with hxb | hxP
        · subst hxb
          exact (Bool.not_eq_true _).mp h
        · exact hP x hxP

theorem mem_insertByActivity (a x : SessionEntity) :
    ∀ l : List SessionEntity, x ∈ insertByActivity a l ↔ x = a ∨ x ∈ l := by
  intro l
  induction l with
  | nil => simp [insertByActivity]
  | cons b rest ih =>
    by_cases h : strLe a.last_activity_at b.last_activity_at = true
    · rw [insertByActivity, if_pos h]
      exact List.mem_cons
    · rw [insertByActivity, if_neg h]
      rw [List.mem_cons, ih, List.mem_cons]
      tauto

theorem sortByActivity_perm : ∀ l : List SessionEntity, (sortByActivity l).Perm l := by
  intro l
  induction l with
  | nil => exact List.Perm.refl []
  | cons a rest ih =>
    obtain ⟨P, S, hls, hins, _⟩ := insertByActivity_decomp a (sortByActivity rest)
    rw [sortByActivity, hins]
    have h1 : (P ++ a :: S).Perm (a :: (P ++ S)) := List.perm_middle
    rw [← hls] at h1
    exact h1.trans (ih.cons a)

theorem pairwise_insertByActivity (a : SessionEntity) :
    ∀ l : List SessionEntity,
      List.Pairwise
        (fun x y => strLe x.last_activity_at y.last_activity_at = true) l →
      List.Pairwise
        (fun x y => strLe x.last_activity_at y.last_activity_at = true)
        (insertByActivity a l) := by
  intro l
  induction l with
  | nil =>
    intro _
    rw [insertByActivity]
    exact List.pairwise_singleton _ a
  | cons b rest ih =>
    intro hpw
    obtain ⟨hb, hrest⟩ := List.pairwise_cons.mp hpw
    by_cases h : strLe a.last_activity_at b.last_activity_at = true
    · rw [insertByActivity, if_pos h]
      rw [List.pairwise_cons]
      refine ⟨?_, hpw⟩
      intro x hx
      rcases List.mem_cons.mp hx with hxb | hxr
      · subst hxb; exact h
      · exact strLe_trans _ _ _ h (hb x hxr)
    · rw [insertByActivity, if_neg h]
      rw [List.pairwise_cons]
      refine ⟨?_, ih hrest⟩
      intro x hx
      rcases (mem_insertByActivity a x rest).mp hx with hxa | hxr
      · rw [hxa]
        rcases strLe_total a.last_activity_at b.last_activity_at with ht | ht
        · exact absurd ht h
        · exact ht
      · exact hb x hxr

theorem sortByActivity_sorted :
    ∀ l : List SessionEntity,
      List.Pairwise
        (fun x y => strLe x.last_activity_at y.last_activity_at = true)
        (sortByActivity l) := by
  intro l
  induction l with
  | nil => simp [sortByActivity]
  | cons a rest ih =>
    rw [sortByActivity]
    exact pairwise_insertByActivity a _ ih

theorem sublist_insertByActivity (a : SessionEntity) (m : List SessionEntity) :
    m.Sublist (insertByActivity a m) := by
  obtain ⟨P, S, hls, hins, _⟩ := insertByActivity_decomp a m
  rw [hins, hls]
  exact List.Sublist.append_left (List.sublist_cons_self a S) P

theorem sortByActivity_stable (a b : SessionEntity)
    (hle : strLe a.last_activity_at b.last_activity_at = true) :
    ∀ l : List SessionEntity, [a, b].Sublist l →
      [a, b].Sublist (sortByActivity l) := by
  intro l
  induction l with
  | nil =>
    intro h
    rw [List.sublist_nil] at h
    cases h
  | cons x t ih =>
    intro h
    rcases List.sublist_cons_iff.mp h with h' | ⟨r, hr, hr2⟩
    · exact (ih h').trans (sublist_insertByActivity x (sortByActivity t))
    · cases hr
      -- now x = a and r = [b], so b ∈ t
      have hbt : b ∈ t := List.singleton_sublist.mp hr2
      have hbsort : b ∈ sortByActivity t := (sortByActivity_perm t).mem_iff.mpr hbt
      obtain ⟨P, S, hls, hins, hP⟩ := insertByActivity_decomp a (sortByActivity t)
      rw [sortByActivity, hins]
      have hbS : b ∈ S := by
        rw [hls] at hbsort
        rcases List.mem_append.mp hbsort with hbP | hbS
        · rw [hP b hbP] at hle; cases hle
        · exact hbS
      exact ((List.Sublist.cons₂ a (List.singleton_sublist.mpr hbS)).trans
        (List.sublist_append_right P (a :: S)))

theorem find?_decomp (p : α → Bool) :
    ∀ (l : List α) (a : α), l.find? p = some a →
      ∃ l1 l2, l = l1 ++ a :: l2 ∧ ∀ x ∈ l1, p x = false := by
  intro l
  induction l with
  | nil => intro a h; cases h
  | cons x t ih =>
    intro a h
    cases hpx : p x with
    | true =>
      rw [List.find?_cons_of_pos t hpx] at h
      cases h
      exact ⟨[], t, rfl, by simp⟩
    | false =>
      rw [List.find?_cons_of_neg t (by simp [hpx])] at h
      obtain ⟨l1, l2, hdec, hl1⟩ := ih a h
      refine ⟨x :: l1, l2, by rw [hdec, List.cons_append], ?_⟩
      intro y hy
      rcases List.mem_cons.mp hy with hyx | hyl
      · subst hyx; exact hpx
      · exact hl1 y hyl

theorem mem_left_of_pair_sublist (a b : α) (hne : ¬ a = b) :
    ∀ (l1 l2 : List α), [a, b].Sublist (l1 ++ b :: l2) → ¬ b ∈ l2 → a ∈ l1 := by
  intro l1
  induction l1 with
  | nil =>
    intro l2 h hb
    rcases List.sublist_cons_iff.mp h with h' | ⟨r, hr, hr2⟩
    · exact absurd (h'.subset (by simp)) hb
    · cases hr
      exact absurd rfl hne
  | cons x t ih =>
    intro l2 h hb
    rw [List.cons_append] at h
    rcases List.sublist_cons_iff.mp h with h' | ⟨r, hr, hr2⟩
    · exact List.mem_cons_of_mem x (ih l2 h' hb)
    · cases hr
      exact List.mem_cons_self _ _

/-! ### Claim C5: pick-next policy -/

/-- Counterexample to C5 as stated: two runnable sessions with equal
`last_activity_at`, where `tb` was created before `ta` — the coordinator
returns the head job of `tb` although `ta` is lexicographically smaller, so
the tie is not broken by smallest `thread_id` (the stable sort leaves ties
in map order, which is session-creation order). -/
theorem pick_next_tiebreak_counterexample :
    pickNextRunnable [] [demoSessionB, demoSessionA] = some ("tb", "jb") ∧
      demoSessionA.last_activity_at = demoSessionB.last_activity_at ∧
      runnableSession [] demoSessionA = true ∧
      runnableSession [] demoSessionB = true ∧
      strLe "ta" "tb" = true ∧ ¬ ("ta" : String) = "tb" := by
  refine ⟨by decide, by decide, by decide, by decide, by decide, by decide⟩

/-- C5 (amended): among the sessions with a non-empty queue, no running job
and no in-flight processing, `pickNextRunnable` returns the thread id and
head job of a session with the smallest `last_activity_at` (in the
comparator order `strLe`); on ties it picks the session that appears first
in the session map (creation order) — formally, no other eligible session
with the same `last_activity_at` precedes the chosen one in the map — and it
returns a job whenever some session is eligible. -/
theorem pick_next_oldest_first (runningThreads : List String)
    (sessions : List SessionEntity)
    (hnd : (sessions.map SessionEntity.thread_id).Nodup) :
    (∀ tid jid, pickNextRunnable runningThreads sessions = some (tid, jid) →
      ∃ s, s ∈ sessions ∧ s.thread_id = tid ∧ s.queue.head? = some jid ∧
        runnableSession runningThreads s = true ∧
        (∀ s', s' ∈ sessions → runnableSession runningThreads s' = true →
          strLe s.last_activity_at s'.last_activity_at = true) ∧
        (∀ s', s' ∈ sessions → runnableSession runningThreads s' = true →
          s'.last_activity_at = s.last_activity_at → ¬ s' = s →
          ¬ [s', s].Sublist sessions)) ∧
    ((∃ s, s ∈ sessions ∧ runnableSession runningThreads s = true) →
      ¬ pickNextRunnable runningThreads sessions = none) := by
  have hperm := sortByActivity_perm sessions
  have hsorted := sortByActivity_sorted sessions
  constructor
  · intro tid jid hpick
    unfold pickNextRunnable at hpick
    cases hfind : (sortByActivity sessions).find? (runnableSession runningThreads) with
    | none => rw [hfind] at hpick; cases hpick
    | some s =>
      rw [hfind] at hpick
      dsimp only at hpick
      have helig : runnableSession runningThreads s = true := List.find?_some hfind
      cases hq : s.queue with
      | nil => rw [hq] at hpick; cases hpick
      | cons j rest =>
        rw [hq] at hpick
        dsimp only at hpick
        cases hpick
        obtain ⟨l1, l2, hdec, hl1⟩ := find?_decomp _ _ s hfind
        have hmem : s ∈ sessions := hperm.mem_iff.mp (by rw [hdec]; simp)
        refine ⟨s, hmem, rfl, by rw [hq]; rfl, helig, ?_, ?_⟩
        · intro s' hs' helig'
          have hs'sort : s' ∈ sortByActivity sessions := hperm.mem_iff.mpr hs'
          rw [hdec] at hs'sort
          rcases List.mem_append.mp hs'sort with hP | hS
          · rw [hl1 s' hP] at helig'; cases helig'
          · rcases List.mem_cons.mp hS with hss | hl2
            · rw [hss]; exact strLe_refl _
            · have := sortByActivity_sorted sessions
              rw [hdec] at this
              have hpair := (List.pairwise_append.mp this).2.1
              exact (List.pairwise_cons.mp hpair).1 s' hl2
        · intro s' hs' helig' hsame hne hsub
          have hles : strLe s'.last_activity_at s.last_activity_at = true := by
            rw [hsame]; exact strLe_refl _
          have hstable := sortByActivity_stable s' s hles sessions hsub
          rw [hdec] at hstable
          have hndl : sessions.Nodup := List.Nodup.of_map SessionEntity.thread_id hnd
          have hndsort : (sortByActivity sessions).Nodup :=
            hperm.symm.nodup hndl
          rw [hdec] at hndsort
          have hsnotl2 : ¬ s ∈ l2 := by
            have := (List.nodup_append.mp hndsort).2.1
            rw [List.nodup_cons] at this
            exact this.1
          have hs'l1 : s' ∈ l1 := mem_left_of_pair_sublist s' s hne l1 l2 hstable hsnotl2
          rw [hl1 s' hs'l1] at helig'
          cases helig'
  · intro hex hnone
    obtain ⟨s, hs, helig⟩ := hex
    unfold pickNextRunnable at hnone
    cases hfind : (sortByActivity sessions).find? (runnableSession runningThreads) with
    | none =>
      have hall := List.find?_eq_none.mp hfind
      exact hall s (hperm.mem_iff.mpr hs) helig
    | some s0 =>
      rw [hfind] at hnone
      dsimp only at hnone
      have helig0 : runnableSession runningThreads s0 = true := List.find?_some hfind
      cases hq : s0.queue with
      | nil =>
        have hprop := of_decide_eq_true helig0
        have hne : ¬ s0.queue.isEmpty = true := hprop.2.2
        rw [hq] at hne
        exact hne rfl
      | cons j rest =>
        rw [hq] at hnone
        dsimp only at hnone
        cases hnone

/-- Witness for C5 (amended): with two runnable sessions present, the
coordinator does pick one. -/
theorem pick_next_oldest_first_witness :
    ¬ pickNextRunnable [] [demoSessionB, demoSessionA] = none ∧
      pickNextRunnable [] [demoSessionB, demoSessionA] = some ("tb", "jb") := by
  have h := pick_next_oldest_first [] [demoSessionB, demoSessionA] (by decide)
  exact ⟨h.2 ⟨demoSessionA, by decide, by decide⟩, by decide⟩

end DCA
